import Mathlib

/-!
# Verification of the openglove socket RPC core

Shallow embedding of the line-delimited JSON-RPC protocol implemented in
`packages/base/src/utils/SocketServer.ts` (server side) and
`packages/app/src/skills/RemoteSkill.ts` (client side).

JavaScript strings are modelled as `List Char`.  JSON values are modelled by
the inductive type `Json`; numbers are modelled as integers (every number that
the protocol core itself produces — error codes, correlation ids — is an
integer, and `JSON.stringify` prints integral numbers without a decimal
point).  `JSON.stringify` / `JSON.parse` are the platform's codec; they are
embedded as the executable printer `printJson` and parser `jparse` below,
together with a proved roundtrip `jparse (printJson v) = some v`.
-/

namespace OpenGlove

/-- JSON values.  Object fields are kept in insertion order, which is the
order `JSON.stringify` prints them in. -/
inductive Json where
  | null : Json
  | bool (b : Bool) : Json
  | num (n : Int) : Json
  | str (s : List Char) : Json
  | arr (xs : List Json) : Json
  | obj (fs : List (List Char × Json)) : Json
deriving Inhabited

/-- Opening brace character (written via its code point). -/
def lbrace : Char := Char.ofNat 123
/-- Closing brace character (written via its code point). -/
def rbrace : Char := Char.ofNat 125

/-- The decimal digit character for `n < 10`. -/
def digitChar (n : Nat) : Char := Char.ofNat (48 + n)

/-- Decimal digits of a natural number, most significant first; the first
argument is recursion fuel (any fuel `> n` is enough). -/
def natCharsAux : Nat → Nat → List Char
  | 0, _ => []
  | fuel + 1, n =>
    if n < 10 then [digitChar n]
    else natCharsAux fuel (n / 10) ++ [digitChar (n % 10)]

/-- Decimal representation of a natural number (what `String(n)` yields). -/
def natChars (n : Nat) : List Char := natCharsAux (n + 1) n

/-- Decimal representation of an integer (what `JSON.stringify` prints for an
integral JavaScript number). -/
def intChars (n : Int) : List Char :=
  if n < 0 then '-' :: natChars n.natAbs else natChars n.natAbs

/-- String-literal escaping performed by `JSON.stringify` for the characters
relevant here (quote, backslash and the common control characters). -/
def escChar (c : Char) : List Char :=
  if c = '"' then ['\\', '"']
  else if c = '\\' then ['\\', '\\']
  else if c = '\n' then ['\\', 'n']
  else if c = '\t' then ['\\', 't']
  else if c = '\r' then ['\\', 'r']
  else [c]

/-- Escape a whole string body. -/
def escape (s : List Char) : List Char := s.flatMap escChar

/-- The keyword spellings of the three JSON literals. -/
def nullChars : List Char := "null".toList
def trueChars : List Char := "true".toList
def falseChars : List Char := "false".toList

mutual
/-- The printer `JSON.stringify`: compact printing, no whitespace, object fields in
insertion order. -/
def printJson : Json → List Char
  | .null => nullChars
  | .bool true => trueChars
  | .bool false => falseChars
  | .num n => intChars n
  | .str s => '"' :: escape s ++ ['"']
  | .arr [] => ['[', ']']
  | .arr (x :: t) => '[' :: (printJson x ++ printSep t) ++ [']']
  | .obj [] => [lbrace, rbrace]
  | .obj (f :: t) => lbrace :: (printField f ++ printFSep t) ++ [rbrace]

/-- One `"key":value` field. -/
def printField : List Char × Json → List Char
  | (k, v) => '"' :: escape k ++ '"' :: ':' :: printJson v

/-- Comma-separated continuation of an array. -/
def printSep : List Json → List Char
  | [] => []
  | x :: t => ',' :: printJson x ++ printSep t

/-- Comma-separated continuation of an object. -/
def printFSep : List (List Char × Json) → List Char
  | [] => []
  | f :: t => ',' :: printField f ++ printFSep t
end

mutual
/-- Structural size of a JSON value, used as a recursion-fuel bound for the
parser (character contents do not count). -/
def jsize : Json → Nat
  | .null | .bool _ | .num _ | .str _ => 1
  | .arr xs => 1 + jsizeL xs
  | .obj fs => 1 + jsizeF fs

def jsizeL : List Json → Nat
  | [] => 1
  | x :: t => 1 + max (jsize x) (jsizeL t)

def jsizeF : List (List Char × Json) → Nat
  | [] => 1
  | (_, v) :: t => 2 + max (jsize v) (jsizeF t)
end

/-! ## The parser (`JSON.parse`)

A recursive-descent parser over `List Char`.  The `Nat` argument is recursion
fuel; `jparse` supplies fuel `length + 1`, which the roundtrip proof shows is
always sufficient for printed values.  The parser accepts exactly the compact
integer-numbered JSON that `printJson` emits (plus the usual permutations of
content); anything else — in particular a line of free text — is rejected,
mirroring the `JSON.parse` failures that the code catches. -/

/-- Expect the literal characters `cs` at the head of the input and return
the rest. -/
def expectChars : List Char → List Char → Option (List Char)
  | [], s => some s
  | c :: cs, s =>
    match s with
    | [] => none
    | d :: t => if d = c then expectChars cs t else none

/-- Undo one `escChar` escape code. -/
def unescChar (c : Char) : Option Char :=
  if c = '"' then some '"'
  else if c = '\\' then some '\\'
  else if c = 'n' then some '\n'
  else if c = 't' then some '\t'
  else if c = 'r' then some '\r'
  else none

/-- Parse a string body up to and including the closing quote. -/
def parseStrBody : List Char → Option (List Char × List Char)
  | [] => none
  | c :: rest =>
    if c = '"' then some ([], rest)
    else if c = '\\' then
      match rest with
      | [] => none
      | e :: rest2 =>
        match unescChar e with
        | none => none
        | some u => (parseStrBody rest2).map (fun p => (u :: p.1, p.2))
    else (parseStrBody rest).map (fun p => (c :: p.1, p.2))

/-- Numeric value of a digit string (fold as `JSON.parse` would compute it). -/
def digitsVal (ds : List Char) : Nat :=
  ds.foldl (fun a c => 10 * a + (c.toNat - 48)) 0

/-- Parse one or more decimal digits. -/
def parseDigits (s : List Char) : Option (Nat × List Char) :=
  let ds := s.takeWhile Char.isDigit
  if ds = [] then none else some (digitsVal ds, s.dropWhile Char.isDigit)

mutual
/-- Parse one JSON value. -/
def parseVal : Nat → List Char → Option (Json × List Char)
  | 0, _ => none
  | fuel + 1, s =>
    match s with
    | [] => none
    | c :: r =>
      if c = 'n' then (expectChars ['u', 'l', 'l'] r).map (fun t => (.null, t))
      else if c = 't' then (expectChars ['r', 'u', 'e'] r).map (fun t => (.bool true, t))
      else if c = 'f' then (expectChars ['a', 'l', 's', 'e'] r).map (fun t => (.bool false, t))
      else if c = '"' then (parseStrBody r).map (fun p => (.str p.1, p.2))
      else if c = '[' then
        match r with
        | [] => none
        | d :: r2 =>
          if d = ']' then some (.arr [], r2)
          else
            match parseVal fuel r with
            | none => none
            | some (v, r3) =>
              match parseSep fuel r3 with
              | none => none
              | some (t, r4) => some (.arr (v :: t), r4)
      else if c = lbrace then
        match r with
        | [] => none
        | d :: r2 =>
          if d = rbrace then some (.obj [], r2)
          else
            match parseOneField fuel r with
            | none => none
            | some (f, r3) =>
              match parseFSep fuel r3 with
              | none => none
              | some (t, r4) => some (.obj (f :: t), r4)
      else if c = '-' then
        match parseDigits r with
        | none => none
        | some (n, r2) => some (.num (-(n : Int)), r2)
      else if c.isDigit then
        match parseDigits (c :: r) with
        | none => none
        | some (n, r2) => some (.num (n : Int), r2)
      else none

/-- Parse one `"key":value` object field. -/
def parseOneField : Nat → List Char → Option ((List Char × Json) × List Char)
  | 0, _ => none
  | fuel + 1, s =>
    match s with
    | [] => none
    | c :: r =>
      if c = '"' then
        match parseStrBody r with
        | none => none
        | some (k, r2) =>
          match r2 with
          | [] => none
          | d :: r3 =>
            if d = ':' then
              match parseVal fuel r3 with
              | none => none
              | some (v, r4) => some ((k, v), r4)
            else none
      else none

/-- Parse the continuation of an array: either `]` or `,` value …. -/
def parseSep : Nat → List Char → Option (List Json × List Char)
  | 0, _ => none
  | fuel + 1, s =>
    match s with
    | [] => none
    | c :: r =>
      if c = ']' then some ([], r)
      else if c = ',' then
        match parseVal fuel r with
        | none => none
        | some (v, r2) =>
          match parseSep fuel r2 with
          | none => none
          | some (t, r3) => some (v :: t, r3)
      else none

/-- Parse the continuation of an object: either the closing brace or
`,` field …. -/
def parseFSep : Nat → List Char → Option (List (List Char × Json) × List Char)
  | 0, _ => none
  | fuel + 1, s =>
    match s with
    | [] => none
    | c :: r =>
      if c = rbrace then some ([], r)
      else if c = ',' then
        match parseOneField fuel r with
        | none => none
        | some (f, r2) =>
          match parseFSep fuel r2 with
          | none => none
          | some (t, r3) => some (f :: t, r3)
      else none
end

/-- The entry point `JSON.parse`: a whole input must be consumed. -/
def jparse (s : List Char) : Option Json :=
  match parseVal (s.length + 1) s with
  | some (v, []) => some v
  | _ => none

/-! ## Codec roundtrip: digits -/

theorem digitChar_toNat (k : Nat) (h : k < 10) : (digitChar k).toNat = 48 + k := by
  interval_cases k <;> decide

theorem digitChar_isDigit (k : Nat) (h : k < 10) : (digitChar k).isDigit = true := by
  interval_cases k <;> decide

theorem natCharsAux_ne_nil (fuel n : Nat) : natCharsAux (fuel + 1) n ≠ [] := by
  unfold natCharsAux
  split <;> simp

theorem natChars_ne_nil (n : Nat) : natChars n ≠ [] := natCharsAux_ne_nil n n

theorem natCharsAux_digits (fuel : Nat) :
    ∀ n, n < fuel → ∀ c ∈ natCharsAux fuel n, c.isDigit = true := by
  induction fuel with
  | zero => intro n h; omega
  | succ f ih =>
    intro n _ c hc
    unfold natCharsAux at hc
    by_cases h10 : n < 10
    · simp [h10] at hc
      subst hc
      exact digitChar_isDigit n h10
    · simp [h10] at hc
      rcases hc with hc | hc
      · exact ih (n / 10) (by omega) c hc
      · subst hc
        exact digitChar_isDigit (n % 10) (Nat.mod_lt _ (by omega))

theorem natChars_digits (n : Nat) : ∀ c ∈ natChars n, c.isDigit = true :=
  natCharsAux_digits (n + 1) n (Nat.lt_succ_self n)

theorem digitsVal_aux (fuel : Nat) :
    ∀ n, n < fuel → ∀ a : Nat,
      (natCharsAux fuel n).foldl (fun a c => 10 * a + (c.toNat - 48)) a =
        a * 10 ^ (natCharsAux fuel n).length + n := by
  induction fuel with
  | zero => intro n h; omega
  | succ f ih =>
    intro n hn a
    unfold natCharsAux
    by_cases h10 : n < 10
    · simp [h10, digitChar_toNat n h10]
      omega
    · have hrec : n / 10 < f := by omega
      simp only [h10, if_false, List.foldl_append, List.length_append]
      rw [ih (n / 10) hrec a]
      simp [digitChar_toNat (n % 10) (Nat.mod_lt _ (by omega))]
      have hdm := Nat.div_add_mod n 10
      ring_nf
      omega

theorem digitsVal_natChars (n : Nat) : digitsVal (natChars n) = n := by
  have := digitsVal_aux (n + 1) n (Nat.lt_succ_self n) 0
  simpa [digitsVal, natChars] using this

/-- The input's first character, if any, is not a decimal digit.  Printed
JSON is always followed either by nothing or by a structural delimiter, so
the parser's digit run never overruns. -/
def digitFree (l : List Char) : Prop :=
  ∀ c, l.head? = some c → c.isDigit = false

theorem digitFree_nil : digitFree [] := by intro c h; simp at h

theorem digitFree_cons {c : Char} (h : c.isDigit = false) (l : List Char) :
    digitFree (c :: l) := by
  intro d hd; simp at hd; subst hd; exact h

theorem takeWhile_all_append {p : Char → Bool} {l rest : List Char}
    (hall : ∀ c ∈ l, p c = true) (hrest : ∀ c, rest.head? = some c → p c = false) :
    (l ++ rest).takeWhile p = l ∧ (l ++ rest).dropWhile p = rest := by
  induction l with
  | nil =>
    simp only [List.nil_append]
    cases rest with
    | nil => simp
    | cons r t =>
      have := hrest r (by simp)
      simp [List.takeWhile, List.dropWhile, this]
  | cons c t ih =>
    have hc := hall c (by simp)
    have ht := ih (fun d hd => hall d (by simp [hd]))
    simp [List.takeWhile_cons, List.dropWhile_cons, hc, ht.1, ht.2]

theorem parseDigits_natChars (n : Nat) (rest : List Char) (hrest : digitFree rest) :
    parseDigits (natChars n ++ rest) = some (n, rest) := by
  have h := takeWhile_all_append (p := Char.isDigit) (natChars_digits n)
    (fun c hc => by
      have := hrest c hc
      exact this)
  unfold parseDigits
  rw [h.1, h.2]
  simp [natChars_ne_nil n, digitsVal_natChars n]

/-! ## Codec roundtrip: strings -/

theorem parseStrBody_quote (rest : List Char) : parseStrBody ('"' :: rest) = some ([], rest) := by
  rw [parseStrBody.eq_def]; simp

theorem parseStrBody_slash (e : Char) (rest : List Char) :
    parseStrBody ('\\' :: e :: rest) =
      match unescChar e with
      | none => none
      | some u => (parseStrBody rest).map (fun p => (u :: p.1, p.2)) := by
  rw [parseStrBody.eq_def]; simp

theorem parseStrBody_other {c : Char} (h1 : c ≠ '"') (h2 : c ≠ '\\') (rest : List Char) :
    parseStrBody (c :: rest) = (parseStrBody rest).map (fun p => (c :: p.1, p.2)) := by
  rw [parseStrBody.eq_def]; simp [h1, h2]

theorem parseStrBody_escape (s : List Char) :
    ∀ rest, parseStrBody (escape s ++ '"' :: rest) = some (s, rest) := by
  induction s with
  | nil => intro rest; simp [escape, parseStrBody_quote]
  | cons c t ih =>
    intro rest
    have hesc : escape (c :: t) = escChar c ++ escape t := by
      simp [escape]
    rw [hesc]
    unfold escChar
    by_cases h1 : c = '"'
    · subst h1; simp [parseStrBody_slash, unescChar, ih]
    · by_cases h2 : c = '\\'
      · subst h2; simp [parseStrBody_slash, unescChar, ih]
      · by_cases h3 : c = '\n'
        · subst h3; simp [parseStrBody_slash, unescChar, ih]
        · by_cases h4 : c = '\t'
          · subst h4; simp [parseStrBody_slash, unescChar, ih]
          · by_cases h5 : c = '\r'
            · subst h5; simp [parseStrBody_slash, unescChar, ih]
            · simp only [h1, h2, h3, h4, h5, if_false, List.cons_append, List.nil_append]
              simp [parseStrBody_other h1 h2, ih]

/-! ## First and last characters of printed JSON -/

/-- The characters a printed JSON value can start with. -/
def goodStart (c : Char) : Prop :=
  c = 'n' ∨ c = 't' ∨ c = 'f' ∨ c = '"' ∨ c = '[' ∨ c = lbrace ∨ c = '-' ∨ c.isDigit = true

theorem isDigit_char_facts {c : Char} (h : c.isDigit = true) :
    c ≠ 'n' ∧ c ≠ 't' ∧ c ≠ 'f' ∧ c ≠ '"' ∧ c ≠ '[' ∧ c ≠ lbrace ∧ c ≠ '-' ∧
      c ≠ ']' ∧ c ≠ rbrace ∧ c ≠ ',' ∧ c ≠ '\n' := by
  refine ⟨?_, ?_, ?_, ?_, ?_, ?_, ?_, ?_, ?_, ?_, ?_⟩ <;>
    (rintro rfl; revert h; decide)

theorem natChars_head (n : Nat) :
    ∃ c t, natChars n = c :: t ∧ c.isDigit = true := by
  rcases hn : natChars n with _ | ⟨c, t⟩
  · exact absurd hn (natChars_ne_nil n)
  · exact ⟨c, t, rfl, natChars_digits n c (by rw [hn]; simp)⟩

theorem printJson_starts (v : Json) :
    ∃ c t, printJson v = c :: t ∧ goodStart c := by
  cases v with
  | null => exact ⟨'n', ['u', 'l', 'l'], by simp [printJson, nullChars], Or.inl rfl⟩
  | bool b =>
    cases b with
    | true => exact ⟨'t', ['r', 'u', 'e'], by simp [printJson, trueChars], by simp [goodStart]⟩
    | false =>
      exact ⟨'f', ['a', 'l', 's', 'e'], by simp [printJson, falseChars], by simp [goodStart]⟩
  | num n =>
    by_cases hneg : n < 0
    · refine ⟨'-', natChars n.natAbs, ?_, by simp [goodStart]⟩
      simp [printJson, intChars, hneg]
    · obtain ⟨c, t, hct, hd⟩ := natChars_head n.natAbs
      refine ⟨c, t, ?_, by simp [goodStart, hd]⟩
      simp [printJson, intChars, hneg, hct]
  | str s => exact ⟨'"', escape s ++ ['"'], by simp [printJson], by simp [goodStart]⟩
  | arr xs =>
    cases xs with
    | nil => exact ⟨'[', [']'], by simp [printJson], by simp [goodStart]⟩
    | cons x t =>
      exact ⟨'[', (printJson x ++ printSep t) ++ [']'], by simp [printJson], by simp [goodStart]⟩
  | obj fs =>
    cases fs with
    | nil => exact ⟨lbrace, [rbrace], by simp [printJson], by simp [goodStart]⟩
    | cons f t =>
      exact ⟨lbrace, (printField f ++ printFSep t) ++ [rbrace], by simp [printJson],
        by simp [goodStart]⟩

theorem goodStart_ne_rbrack {c : Char} (h : goodStart c) : c ≠ ']' := by
  rcases h with h | h | h | h | h | h | h | h <;> first
    | (subst h; decide)
    | exact (isDigit_char_facts h).2.2.2.2.2.2.2.1

theorem goodStart_ne_rbrace {c : Char} (h : goodStart c) : c ≠ rbrace := by
  rcases h with h | h | h | h | h | h | h | h <;> first
    | (subst h; decide)
    | exact (isDigit_char_facts h).2.2.2.2.2.2.2.2.1

theorem printJson_ne_nil (v : Json) : printJson v ≠ [] := by
  obtain ⟨c, t, h, _⟩ := printJson_starts v
  simp [h]

/-! ## Codec roundtrip: the main lemma -/

theorem jsize_pos (v : Json) : 1 ≤ jsize v := by
  cases v <;> simp [jsize]

theorem jsizeL_pos (t : List Json) : 1 ≤ jsizeL t := by
  cases t <;> simp [jsizeL]

theorem jsizeF_pos (t : List (List Char × Json)) : 1 ≤ jsizeF t := by
  cases t with
  | nil => simp [jsizeF]
  | cons f t => obtain ⟨k, v⟩ := f; rw [jsizeF]; omega

theorem digitFree_printSep_close (t : List Json) (rest : List Char) :
    digitFree (printSep t ++ ']' :: rest) := by
  cases t with
  | nil => exact digitFree_cons (by decide) _
  | cons x t => simp only [printSep, List.cons_append]; exact digitFree_cons (by decide) _

theorem digitFree_printFSep_close (t : List (List Char × Json)) (rest : List Char) :
    digitFree (printFSep t ++ rbrace :: rest) := by
  cases t with
  | nil => exact digitFree_cons (by decide) _
  | cons f t => simp only [printFSep, List.cons_append]; exact digitFree_cons (by decide) _

theorem jsize_arr_eq (xs : List Json) : jsize (.arr xs) = 1 + jsizeL xs := by rw [jsize]

theorem jsize_obj_eq (fs : List (List Char × Json)) : jsize (.obj fs) = 1 + jsizeF fs := by
  rw [jsize]

theorem jsizeL_cons_eq (x : Json) (t : List Json) :
    jsizeL (x :: t) = 1 + max (jsize x) (jsizeL t) := by rw [jsizeL]

theorem jsizeF_cons_eq (k : List Char) (v : Json) (t : List (List Char × Json)) :
    jsizeF ((k, v) :: t) = 2 + max (jsize v) (jsizeF t) := by rw [jsizeF]

theorem lbrace_ne_n : lbrace ≠ 'n' := by decide
theorem lbrace_ne_t : lbrace ≠ 't' := by decide
theorem lbrace_ne_f : lbrace ≠ 'f' := by decide
theorem lbrace_ne_q : lbrace ≠ '"' := by decide
theorem lbrace_ne_lbrack : lbrace ≠ '[' := by decide
theorem quote_ne_rbrace : ('"' : Char) ≠ rbrace := by decide

theorem parse_print (fuel : Nat) :
    (∀ v rest, jsize v ≤ fuel → digitFree rest →
      parseVal fuel (printJson v ++ rest) = some (v, rest)) ∧
    (∀ k v rest, jsize v < fuel → digitFree rest →
      parseOneField fuel (printField (k, v) ++ rest) = some ((k, v), rest)) ∧
    (∀ t rest, jsizeL t ≤ fuel →
      parseSep fuel (printSep t ++ ']' :: rest) = some (t, rest)) ∧
    (∀ t rest, jsizeF t ≤ fuel →
      parseFSep fuel (printFSep t ++ rbrace :: rest) = some (t, rest)) := by
  induction fuel with
  | zero =>
    refine ⟨fun v _ h _ => absurd h (by have := jsize_pos v; omega),
      fun _ v _ h _ => absurd h (by omega),
      fun t _ h => absurd h (by have := jsizeL_pos t; omega),
      fun t _ h => absurd h (by have := jsizeF_pos t; omega)⟩
  | succ f ih =>
    obtain ⟨ihP, ihS, ihQ, ihR⟩ := ih
    refine ⟨?_, ?_, ?_, ?_⟩
    · -- parseVal on a printed value
      intro v rest hs hrest
      cases v with
      | null => simp [printJson, nullChars, parseVal, expectChars]
      | bool b => cases b <;> simp [printJson, trueChars, falseChars, parseVal, expectChars]
      | num n =>
        by_cases hneg : n < 0
        · have habs : (-(n.natAbs : Int)) = n := by omega
          have habs2 : -|n| = n := by
            rw [abs_of_neg hneg]; ring
          have hml : ('-' : Char) ≠ lbrace := by decide
          have hpr : printJson (.num n) = '-' :: natChars n.natAbs := by
            simp [printJson, intChars, hneg]
          rw [hpr]
          simp [parseVal, parseDigits_natChars n.natAbs rest hrest, habs, habs2, hml]
        · have habs : ((n.natAbs : Int)) = n := by omega
          obtain ⟨c, t, hct, hd⟩ := natChars_head n.natAbs
          have hps : printJson (.num n) = c :: t := by
            simp [printJson, intChars, hneg, hct]
          obtain ⟨hc1, hc2, hc3, hc4, hc5, hc6, hc7, -⟩ := isDigit_char_facts hd
          rw [hps]
          have hdig : parseDigits (c :: (t ++ rest)) = some (n.natAbs, rest) := by
            have h0 := parseDigits_natChars n.natAbs rest hrest
            rw [hct] at h0
            simpa using h0
          simp only [List.cons_append, parseVal, hc1, hc2, hc3, hc4, hc5, hc6, hc7,
            if_false, hd, if_true, hdig, habs]
      | str s =>
        simp [printJson, parseVal, parseStrBody_escape]
      | arr xs =>
        cases xs with
        | nil => simp [printJson, parseVal]
        | cons x t =>
          rw [jsize_arr_eq, jsizeL_cons_eq] at hs
          have hsx : jsize x ≤ f := by
            have h2 := Nat.le_max_left (jsize x) (jsizeL t)
            omega
          have hst : jsizeL t ≤ f := by
            have h2 := Nat.le_max_right (jsize x) (jsizeL t)
            omega
          obtain ⟨c, ct, hx, hgs⟩ := printJson_starts x
          have hcne : c ≠ ']' := goodStart_ne_rbrack hgs
          have harr : printJson (.arr (x :: t)) ++ rest =
              '[' :: (printJson x ++ (printSep t ++ ']' :: rest)) := by
            simp [printJson]
          have hP := ihP x (printSep t ++ ']' :: rest) hsx (digitFree_printSep_close t rest)
          have hQ := ihQ t rest hst
          rw [harr, hx]
          rw [hx] at hP
          simp only [List.cons_append, List.append_assoc] at hP ⊢
          simp [parseVal, hcne, hP, hQ]
      | obj fs =>
        cases fs with
        | nil =>
          simp [printJson, parseVal, lbrace_ne_n, lbrace_ne_t, lbrace_ne_f, lbrace_ne_q,
            lbrace_ne_lbrack]
        | cons f0 t =>
          obtain ⟨k, v0⟩ := f0
          rw [jsize_obj_eq, jsizeF_cons_eq] at hs
          have hsv : jsize v0 < f := by
            have h2 := Nat.le_max_left (jsize v0) (jsizeF t)
            omega
          have hst : jsizeF t ≤ f := by
            have h2 := Nat.le_max_right (jsize v0) (jsizeF t)
            omega
          have hobj : printJson (.obj ((k, v0) :: t)) ++ rest =
              lbrace :: (printField (k, v0) ++ (printFSep t ++ rbrace :: rest)) := by
            simp [printJson]
          have hS := ihS k v0 (printFSep t ++ rbrace :: rest) hsv
            (digitFree_printFSep_close t rest)
          have hR := ihR t rest hst
          have hfield : printField (k, v0) = '"' :: (escape k ++ '"' :: ':' :: printJson v0) := by
            simp [printField]
          rw [hobj, hfield]
          rw [hfield] at hS
          simp only [List.cons_append, List.append_assoc] at hS ⊢
          simp [parseVal, lbrace_ne_n, lbrace_ne_t, lbrace_ne_f, lbrace_ne_q,
            lbrace_ne_lbrack, quote_ne_rbrace.symm, quote_ne_rbrace, hS, hR]
    · -- parseOneField on a printed field
      intro k v rest hv hrest
      have hfield : printField (k, v) ++ rest =
          '"' :: (escape k ++ '"' :: (':' :: (printJson v ++ rest))) := by
        simp [printField]
      rw [hfield]
      have hP := ihP v rest (by omega) hrest
      simp [parseOneField, parseStrBody_escape, hP]
    · -- parseSep on a printed array continuation
      intro t rest ht
      cases t with
      | nil => simp [printSep, parseSep]
      | cons x t =>
        rw [jsizeL_cons_eq] at ht
        have hsx : jsize x ≤ f := by
          have h2 := Nat.le_max_left (jsize x) (jsizeL t)
          omega
        have hst : jsizeL t ≤ f := by
          have h2 := Nat.le_max_right (jsize x) (jsizeL t)
          omega
        have hP := ihP x (printSep t ++ ']' :: rest) hsx (digitFree_printSep_close t rest)
        have hQ := ihQ t rest hst
        simp [printSep, parseSep, hP, hQ]
    · -- parseFSep on a printed object continuation
      intro t rest ht
      cases t with
      | nil => simp [printFSep, parseFSep]
      | cons f0 t =>
        obtain ⟨k, v0⟩ := f0
        rw [jsizeF_cons_eq] at ht
        have hsv : jsize v0 < f := by
          have h2 := Nat.le_max_left (jsize v0) (jsizeF t)
          omega
        have hst : jsizeF t ≤ f := by
          have h2 := Nat.le_max_right (jsize v0) (jsizeF t)
          omega
        have hS := ihS k v0 (printFSep t ++ rbrace :: rest) hsv
          (digitFree_printFSep_close t rest)
        have hR := ihR t rest hst
        have hcomma : (',' : Char) ≠ rbrace := by decide
        simp [printFSep, parseFSep, hS, hR, hcomma]

/-! ## Fuel bound: the printed length always covers the structural size -/

theorem printJson_length_pos (v : Json) : 1 ≤ (printJson v).length := by
  obtain ⟨c, t, h, -⟩ := printJson_starts v
  simp [h]

theorem printField_length (k : List Char) (v : Json) :
    (printField (k, v)).length = (escape k).length + (printJson v).length + 3 := by
  simp [printField]
  omega

mutual
theorem jsize_le_len : ∀ v : Json, jsize v ≤ (printJson v).length
  | .null => by simp [jsize, printJson, nullChars]
  | .bool b => by cases b <;> simp [jsize, printJson, trueChars, falseChars]
  | .num n => by
    have := natChars_ne_nil n.natAbs
    have hl : 1 ≤ (natChars n.natAbs).length := by
      cases h : natChars n.natAbs with
      | nil => exact absurd h this
      | cons c t => simp
    simp only [jsize, printJson, intChars]
    split <;> (simp; try omega)
  | .str s => by simp [jsize, printJson]
  | .arr [] => by simp [jsize, jsizeL, printJson]
  | .arr (x :: t) => by
    have h1 := jsize_le_len x
    have h2 := jsizeL_le_len t
    have h3 := printJson_length_pos x
    have hmax : max (jsize x) (jsizeL t) ≤ (printJson x).length + (printSep t).length :=
      max_le (by omega) (by omega)
    rw [jsize_arr_eq, jsizeL_cons_eq]
    simp [printJson]
    omega
  | .obj [] => by simp [jsize, jsizeF, printJson]
  | .obj ((k, v) :: t) => by
    have h1 := jsize_le_len v
    have h2 := jsizeF_le_len t
    have h3 := printJson_length_pos v
    have h4 := printField_length k v
    have hmax : max (jsize v) (jsizeF t) ≤
        (printField (k, v)).length + (printFSep t).length - 1 :=
      max_le (by omega) (by omega)
    rw [jsize_obj_eq, jsizeF_cons_eq]
    simp [printJson]
    omega

theorem jsizeL_le_len : ∀ t : List Json, jsizeL t ≤ (printSep t).length + 1
  | [] => by simp [jsizeL, printSep]
  | x :: t => by
    have h1 := jsize_le_len x
    have h2 := jsizeL_le_len t
    have hmax : max (jsize x) (jsizeL t) ≤ (printJson x).length + (printSep t).length + 1 :=
      max_le (by omega) (by omega)
    rw [jsizeL_cons_eq]
    simp [printSep]
    omega

theorem jsizeF_le_len : ∀ t : List (List Char × Json), jsizeF t ≤ (printFSep t).length + 1
  | [] => by simp [jsizeF, printFSep]
  | (k, v) :: t => by
    have h1 := jsize_le_len v
    have h2 := jsizeF_le_len t
    have h4 := printField_length k v
    have hmax : max (jsize v) (jsizeF t) ≤ (printField (k, v)).length + (printFSep t).length :=
      max_le (by omega) (by omega)
    rw [jsizeF_cons_eq]
    simp [printFSep]
    omega
end

/-- Parser monotonicity is not needed: `jparse` always supplies enough fuel
for a printed value, so printing and re-parsing is the identity.  This is the
roundtrip fact behind every frame on the wire. -/
theorem jparse_print (v : Json) : jparse (printJson v) = some v := by
  have hP := (parse_print ((printJson v).length + 1)).1 v []
    (by have := jsize_le_len v; omega) digitFree_nil
  simp only [List.append_nil] at hP
  simp [jparse, hP]

/-! ## Framing: `split('\n')`, `trim`, and newline-freedom of printed frames -/

/-- JavaScript `buffer.split('\n')`: the first component is the list of
complete (newline-terminated) segments, the second the trailing text after
the last newline.  The JavaScript result array is `fst ++ [snd]`. -/
def splitNl : List Char → List (List Char) × List Char
  | [] => ([], [])
  | c :: cs =>
    match splitNl cs with
    | (ls, q) =>
      if c = '\n' then ([] :: ls, q)
      else
        match ls with
        | [] => ([], c :: q)
        | l :: ls' => ((c :: l) :: ls', q)

/-- Prefix a chunk of text onto the first segment of a split. -/
def consFirst (p : List Char) : List (List Char) × List Char → List (List Char) × List Char
  | ([], q) => ([], p ++ q)
  | (l :: ls, q) => ((p ++ l) :: ls, q)

theorem splitNl_append (a b : List Char) :
    splitNl (a ++ b) = ((splitNl a).1 ++ (consFirst (splitNl a).2 (splitNl b)).1,
      (consFirst (splitNl a).2 (splitNl b)).2) := by
  induction a with
  | nil =>
    rcases hb : splitNl b with ⟨bs, bq⟩
    cases bs <;> simp [splitNl, consFirst, hb]
  | cons c cs ih =>
    rcases hcs : splitNl cs with ⟨ls, q⟩
    rcases hb : splitNl b with ⟨bs, bq⟩
    rw [hcs, hb] at ih
    by_cases hc : c = '\n'
    · subst hc
      cases bs <;> simp [splitNl, ih, hcs, consFirst]
    · cases ls with
      | nil =>
        cases bs <;> simp [splitNl, ih, hcs, hc, consFirst]
      | cons l ls' =>
        cases bs <;> simp [splitNl, ih, hcs, hc, consFirst]

/-- A chunk with no newline splits to no complete segment. -/
theorem splitNl_no_nl (l : List Char) (h : '\n' ∉ l) : splitNl l = ([], l) := by
  induction l with
  | nil => simp [splitNl]
  | cons c cs ih =>
    have hc : c ≠ '\n' := by rintro rfl; simp at h
    have hcs := ih (by intro hm; exact h (by simp [hm]))
    simp [splitNl, hc, hcs]

/-- The trailing text after the last newline contains no newline. -/
theorem splitNl_snd_no_nl (l : List Char) : '\n' ∉ (splitNl l).2 := by
  induction l with
  | nil => simp [splitNl]
  | cons c cs ih =>
    rcases hcs : splitNl cs with ⟨ls, q⟩
    rw [hcs] at ih
    by_cases hc : c = '\n'
    · subst hc; simp [splitNl, hcs, ih]
    · cases ls with
      | nil =>
        simp only [splitNl, hcs, hc, if_false]
        simp at ih ⊢
        exact ⟨fun he => hc he.symm, ih⟩
      | cons l ls' => simp [splitNl, hcs, hc, ih]

/-- ASCII whitespace as relevant to these frames (`String.prototype.trim`
strips the full Unicode whitespace set; the protocol only ever produces these
four). -/
def isWsChar (c : Char) : Bool := c = ' ' || c = '\t' || c = '\n' || c = '\r'

/-- JavaScript `line.trim()`. -/
def trimL (l : List Char) : List Char :=
  ((l.dropWhile isWsChar).reverse.dropWhile isWsChar).reverse

theorem trimL_nil : trimL [] = [] := by simp [trimL]

theorem trimL_eq_self (l : List Char)
    (hhead : ∀ c, l.head? = some c → isWsChar c = false)
    (hlast : ∀ c, l.getLast? = some c → isWsChar c = false) : trimL l = l := by
  have hdrop : l.dropWhile isWsChar = l := by
    cases l with
    | nil => simp
    | cons c cs => simp [List.dropWhile_cons, hhead c (by simp)]
  have hdrop2 : l.reverse.dropWhile isWsChar = l.reverse := by
    cases hrev : l.reverse with
    | nil => simp
    | cons d ds =>
      have hd : l.getLast? = some d := by
        rw [← List.head?_reverse, hrev]
        rfl
      simp [List.dropWhile_cons, hlast d hd]
  rw [trimL, hdrop, hdrop2, List.reverse_reverse]

theorem mem_of_getLast? {l : List Char} {c : Char} (h : l.getLast? = some c) : c ∈ l := by
  cases l with
  | nil => simp at h
  | cons x t =>
    rw [List.getLast?_eq_getLast _ (by simp)] at h
    simp at h
    subst h
    exact List.getLast_mem _

/-- The characters a printed JSON value can end with. -/
def goodEnd (c : Char) : Prop :=
  c = 'l' ∨ c = 'e' ∨ c = '"' ∨ c = ']' ∨ c = rbrace ∨ c.isDigit = true

theorem natChars_getLast (n : Nat) {c : Char} (h : (natChars n).getLast? = some c) :
    c.isDigit = true :=
  natChars_digits n c (mem_of_getLast? h)

theorem printJson_ends (v : Json) {c : Char} (h : (printJson v).getLast? = some c) :
    goodEnd c := by
  cases v with
  | null => simp [printJson, nullChars] at h; subst h; simp [goodEnd]
  | bool b =>
    cases b <;> (simp [printJson, trueChars, falseChars] at h; subst h; simp [goodEnd])
  | num n =>
    by_cases hneg : n < 0
    · obtain ⟨d, t, hdt, -⟩ := natChars_head n.natAbs
      have hpr : printJson (.num n) = '-' :: d :: t := by
        simp [printJson, intChars, hneg, hdt]
      rw [hpr, List.getLast?_cons_cons, ← hdt] at h
      exact Or.inr (Or.inr (Or.inr (Or.inr (Or.inr (natChars_getLast _ h)))))
    · have hpr : printJson (.num n) = natChars n.natAbs := by
        simp [printJson, intChars, hneg]
      rw [hpr] at h
      exact Or.inr (Or.inr (Or.inr (Or.inr (Or.inr (natChars_getLast _ h)))))
  | str s =>
    have hpr : printJson (.str s) = ('"' :: escape s) ++ ['"'] := by simp [printJson]
    rw [hpr, List.getLast?_concat] at h
    simp at h
    subst h
    simp [goodEnd]
  | arr xs =>
    cases xs with
    | nil => simp [printJson] at h; subst h; simp [goodEnd]
    | cons x t =>
      have hpr : printJson (.arr (x :: t)) = ('[' :: (printJson x ++ printSep t)) ++ [']'] := by
        simp [printJson]
      rw [hpr, List.getLast?_concat] at h
      simp at h
      subst h
      simp [goodEnd]
  | obj fs =>
    cases fs with
    | nil =>
      have hpr : printJson (.obj []) = [lbrace] ++ [rbrace] := by simp [printJson]
      rw [hpr, List.getLast?_concat] at h
      simp at h
      subst h
      simp [goodEnd]
    | cons f t =>
      have hpr : printJson (.obj (f :: t)) =
          (lbrace :: (printField f ++ printFSep t)) ++ [rbrace] := by
        simp [printJson]
      rw [hpr, List.getLast?_concat] at h
      simp at h
      subst h
      simp [goodEnd]

theorem isWsChar_false_of_digit {c : Char} (h : c.isDigit = true) : isWsChar c = false := by
  simp only [isWsChar, Bool.or_eq_false_iff, decide_eq_false_iff_not]
  refine ⟨⟨⟨?_, ?_⟩, ?_⟩, ?_⟩ <;> (rintro rfl; revert h; decide)

theorem goodStart_not_ws {c : Char} (h : goodStart c) : isWsChar c = false := by
  rcases h with h | h | h | h | h | h | h | h <;> first
    | (subst h; decide)
    | exact isWsChar_false_of_digit h

theorem goodEnd_not_ws {c : Char} (h : goodEnd c) : isWsChar c = false := by
  rcases h with h | h | h | h | h | h <;> first
    | (subst h; decide)
    | exact isWsChar_false_of_digit h

/-- A printed frame is unchanged by `trim()`. -/
theorem trimL_print (v : Json) : trimL (printJson v) = printJson v := by
  apply trimL_eq_self
  · intro c hc
    obtain ⟨d, t, hdt, hgs⟩ := printJson_starts v
    rw [hdt] at hc
    simp at hc
    subst hc
    exact goodStart_not_ws hgs
  · intro c hc
    exact goodEnd_not_ws (printJson_ends v hc)

/-! ## No raw newline inside a printed frame -/

theorem nl_not_escChar (c : Char) : '\n' ∉ escChar c := by
  unfold escChar
  by_cases h1 : c = '"'
  · simp [h1]
  · by_cases h2 : c = '\\'
    · simp [h1, h2]
    · by_cases h3 : c = '\n'
      · simp [h1, h2, h3]
      · by_cases h4 : c = '\t'
        · simp [h1, h2, h3, h4]
        · by_cases h5 : c = '\r'
          · simp [h1, h2, h3, h4, h5]
          · simp [h1, h2, h3, h4, h5]
            exact fun he => h3 he.symm

theorem nl_not_escape (s : List Char) : '\n' ∉ escape s := by
  simp only [escape, List.mem_flatMap, not_exists]
  rintro x ⟨hx, hmem⟩
  exact nl_not_escChar x hmem

theorem nl_not_natChars (n : Nat) : '\n' ∉ natChars n := by
  intro h
  have := natChars_digits n _ h
  exact absurd this (by decide)

mutual
theorem nl_not_print : ∀ v : Json, '\n' ∉ printJson v
  | .null => by decide
  | .bool b => by cases b <;> decide
  | .num n => by
    simp only [printJson, intChars]
    split
    · intro h
      rcases List.mem_cons.mp h with h | h
      · exact absurd h.symm (by decide)
      · exact nl_not_natChars _ h
    · exact nl_not_natChars _
  | .str s => by
    simp only [printJson]
    intro h
    rcases List.mem_cons.mp h with h | h
    · exact absurd h.symm (by decide)
    · rcases List.mem_append.mp h with h | h
      · exact nl_not_escape s h
      · simp at h
  | .arr [] => by decide
  | .arr (x :: t) => by
    simp only [printJson]
    intro h
    rcases List.mem_append.mp h with h | h
    · rcases List.mem_cons.mp h with h | h
      · exact absurd h.symm (by decide)
      · rcases List.mem_append.mp h with h | h
        · exact nl_not_print x h
        · exact nl_not_printSep t h
    · simp at h
  | .obj [] => by
    intro h
    simp only [printJson] at h
    rcases List.mem_cons.mp h with h | h
    · exact absurd h (by decide)
    · simp at h
      exact absurd h (by decide)
  | .obj (f :: t) => by
    simp only [printJson]
    intro h
    rcases List.mem_append.mp h with h | h
    · rcases List.mem_cons.mp h with h | h
      · exact absurd h (by decide)
      · rcases List.mem_append.mp h with h | h
        · exact nl_not_printField f h
        · exact nl_not_printFSep t h
    · simp at h
      exact absurd h (by decide)

theorem nl_not_printField : ∀ f : List Char × Json, '\n' ∉ printField f
  | (k, v) => by
    simp only [printField]
    intro h
    rcases List.mem_cons.mp h with h | h
    · exact absurd h.symm (by decide)
    · rcases List.mem_append.mp h with h | h
      · exact nl_not_escape k h
      · rcases List.mem_cons.mp h with h | h
        · exact absurd h.symm (by decide)
        · rcases List.mem_cons.mp h with h | h
          · exact absurd h.symm (by decide)
          · exact nl_not_print v h

theorem nl_not_printSep : ∀ t : List Json, '\n' ∉ printSep t
  | [] => by decide
  | x :: t => by
    simp only [printSep]
    intro h
    rcases List.mem_cons.mp h with h | h
    · exact absurd h.symm (by decide)
    · rcases List.mem_append.mp h with h | h
      · exact nl_not_print x h
      · exact nl_not_printSep t h

theorem nl_not_printFSep : ∀ t : List (List Char × Json), '\n' ∉ printFSep t
  | [] => by decide
  | f :: t => by
    simp only [printFSep]
    intro h
    rcases List.mem_cons.mp h with h | h
    · exact absurd h.symm (by decide)
    · rcases List.mem_append.mp h with h | h
      · exact nl_not_printField f h
      · exact nl_not_printFSep t h
end

/-! ## The server: `SocketServer.handleRequest` and `handleConnection`

`SocketServer.ts` keeps a `Map` from method names to handlers.  A JavaScript
handler invocation `await handler(request.params)` either resolves to a value,
rejects with an error message, or never settles; `HandlerOutcome` models the
three possibilities (`pending` models a promise that never settles — the
`await` then suspends the enclosing `data` callback forever). -/

inductive HandlerOutcome where
  | ok (v : Json) : HandlerOutcome
  | thrown (msg : List Char) : HandlerOutcome
  | pending : HandlerOutcome

/-- From the source, `export type MethodHandler = (params?: unknown) => Promise<unknown>`;
`none` for the argument models JavaScript `undefined` (absent `params`). -/
abbrev MethodHandler := Option Json → HandlerOutcome

/-- The contents of `this.methods` (a string-keyed map, keys unique). -/
abbrev Registry := List (List Char × MethodHandler)

def assocHandler (s : List Char) : Registry → Option MethodHandler
  | [] => none
  | (k, h) :: t => if k = s then some h else assocHandler s t

/-- Lookup `this.methods.get(request.method)`: only a string key can hit the map;
an absent or non-string `method` field misses. -/
def lookupMethod (reg : Registry) : Option Json → Option MethodHandler
  | some (.str s) => assocHandler s reg
  | _ => none

def assocField (k : List Char) : List (List Char × Json) → Option Json
  | [] => none
  | (k', v) :: t => if k' = k then some v else assocField k t

/-- JavaScript property access `obj.k` on a decoded JSON value: `none` models
`undefined` (absent field or a non-object receiver). -/
def getField (k : List Char) : Json → Option Json
  | .obj fs => assocField k fs
  | _ => none

def jsonrpcKey : List Char := "jsonrpc".toList
def methodKey : List Char := "method".toList
def paramsKey : List Char := "params".toList
def idKey : List Char := "id".toList
def resultKey : List Char := "result".toList
def errorKey : List Char := "error".toList
def codeKey : List Char := "code".toList
def messageKey : List Char := "message".toList
def dataKey : List Char := "data".toList

/-- The `error` member of a `JSONRPCResponse`. -/
structure RpcError where
  code : Int
  message : List Char
  data : Option Json
deriving Inhabited

/-- The interface `JSONRPCResponse` as built by the server (the constant `jsonrpc: '2.0'`
member is added at encoding time).  `none` models an `undefined` member,
which `JSON.stringify` omits. -/
structure JSONRPCResponse where
  result : Option Json
  error : Option RpcError
  id : Option Json
deriving Inhabited

def encodeError (e : RpcError) : Json :=
  .obj ([(codeKey, .num e.code), (messageKey, .str e.message)] ++
    (match e.data with
     | none => []
     | some d => [(dataKey, d)]))

/-- The JSON object that `JSON.stringify` sees for a response: members in
insertion order (`jsonrpc`, then `result`/`error`, then `id`), `undefined`
members omitted. -/
def encodeResponse (r : JSONRPCResponse) : Json :=
  .obj ([(jsonrpcKey, .str "2.0".toList)] ++
    (match r.result with
     | none => []
     | some v => [(resultKey, v)]) ++
    (match r.error with
     | none => []
     | some e => [(errorKey, encodeError e)]) ++
    (match r.id with
     | none => []
     | some i => [(idKey, i)]))

/-- The response the `catch` block in `handleConnection` writes when
`JSON.parse` fails (`id: undefined`). -/
def parseErrorResponse : JSONRPCResponse :=
  ⟨none, some ⟨-32700, "Parse error".toList, none⟩, none⟩

/-- The method `SocketServer.handleRequest`, returning `none` when the awaited handler
never settles (so the response is never produced). -/
def handleRequest (reg : Registry) (request : Json) : Option JSONRPCResponse :=
  match lookupMethod reg (getField methodKey request) with
  | none => some ⟨none, some ⟨-32601, "Method not found".toList, none⟩, getField idKey request⟩
  | some handler =>
    match handler (getField paramsKey request) with
    | .ok v => some ⟨some v, none, getField idKey request⟩
    | .thrown m =>
      some ⟨none, some ⟨-32603, "Internal error".toList, some (.str m)⟩, getField idKey request⟩
    | .pending => none

/-- Observable events of one connection, in order. -/
inductive SEv where
  | line (t : List Char) : SEv
  | dispatched (request : Json) : SEv
  | wrote (r : JSONRPCResponse) : SEv

/-- State owned by one accepted connection: the decode buffer and the
observable history.  The server's `data` handler contains no
`socket.end()`/`socket.destroy()` call, so no transition below ever sets
`closed`; `suspended` records that an `await` inside the line loop never
resumed (the rest of that callback, including the buffer reassignment,
then never runs). -/
structure ConnState where
  buffer : List Char
  log : List SEv
  writes : List (List Char)
  suspended : Bool
  closed : Bool

def initConn : ConnState := ⟨[], [], [], false, false⟩

/-- Processing of one complete line inside the `for` loop of the `data`
callback: `trim`, skip blank lines, `JSON.parse` (parse error → `-32700`
response), `await this.handleRequest(request)`, write the response. -/
def processLine (reg : Registry) (st : ConnState) (l : List Char) : ConnState :=
  let t := trimL l
  if t = [] then st
  else
    match jparse t with
    | none =>
      { st with log := st.log ++ [.line t, .wrote parseErrorResponse],
                writes := st.writes ++ [printJson (encodeResponse parseErrorResponse) ++ ['\n']] }
    | some request =>
      match handleRequest reg request with
      | none => { st with log := st.log ++ [.line t, .dispatched request], suspended := true }
      | some r =>
        { st with log := st.log ++ [.line t, .dispatched request, .wrote r],
                  writes := st.writes ++ [printJson (encodeResponse r) ++ ['\n']] }

/-- The loop `for (let i = 0; i < lines.length - 1; i++)` loop; a suspended
`await` stops the loop (and everything after it). -/
def processLines (reg : Registry) : ConnState → List (List Char) → ConnState
  | st, [] => st
  | st, l :: ls =>
    let st' := processLine reg st l
    if st'.suspended then st' else processLines reg st' ls

/-- One `data` event: append the chunk, split on newlines, process every
complete line, keep the trailing partial text buffered.  If the callback
suspended, the final `buffer = lines[lines.length - 1]` reassignment never
runs. -/
def onData (reg : Registry) (st : ConnState) (d : List Char) : ConnState :=
  if st.suspended then st
  else
    let whole := st.buffer ++ d
    let parts := splitNl whole
    let st' := processLines reg { st with buffer := whole } parts.1
    if st'.suspended then st' else { st' with buffer := parts.2 }

/-- A connection fed a sequence of chunks in order, each `data` callback
running to completion (or suspension) before the next. -/
def runConn (reg : Registry) (chunks : List (List Char)) : ConnState :=
  chunks.foldl (onData reg) initConn

/-- Every registered handler settles (no promise pends forever). -/
def Completing (reg : Registry) : Prop :=
  ∀ m h, lookupMethod reg m = some h → ∀ p, h p ≠ .pending

/-- The events one complete line contributes. -/
def lineEvents (reg : Registry) (l : List Char) : List SEv :=
  let t := trimL l
  if t = [] then []
  else
    match jparse t with
    | none => [.line t, .wrote parseErrorResponse]
    | some request =>
      match handleRequest reg request with
      | none => [.line t, .dispatched request]
      | some r => [.line t, .dispatched request, .wrote r]

/-- The raw writes one complete line contributes. -/
def lineWrites (reg : Registry) (l : List Char) : List (List Char) :=
  let t := trimL l
  if t = [] then []
  else
    match jparse t with
    | none => [printJson (encodeResponse parseErrorResponse) ++ ['\n']]
    | some request =>
      match handleRequest reg request with
      | none => []
      | some r => [printJson (encodeResponse r) ++ ['\n']]

theorem handleRequest_ne_none {reg : Registry} (hC : Completing reg) (request : Json) :
    handleRequest reg request ≠ none := by
  unfold handleRequest
  cases hm : lookupMethod reg (getField methodKey request) with
  | none => simp
  | some handler =>
    cases hh : handler (getField paramsKey request) with
    | ok v => simp [hh]
    | thrown m => simp [hh]
    | pending => exact absurd hh (hC _ handler hm _)

theorem processLine_eq {reg : Registry} (hC : Completing reg) (st : ConnState) (l : List Char) :
    processLine reg st l =
      { st with log := st.log ++ lineEvents reg l, writes := st.writes ++ lineWrites reg l } := by
  unfold processLine lineEvents lineWrites
  by_cases ht : trimL l = []
  · simp [ht]
  · simp only [ht, if_false]
    cases hp : jparse (trimL l) with
    | none => simp
    | some request =>
      cases hr : handleRequest reg request with
      | none => exact absurd hr (handleRequest_ne_none hC request)
      | some r => simp [hr]

theorem processLines_eq {reg : Registry} (hC : Completing reg) :
    ∀ (ls : List (List Char)) (st : ConnState), st.suspended = false →
      processLines reg st ls =
        { st with log := st.log ++ ls.flatMap (lineEvents reg),
                  writes := st.writes ++ ls.flatMap (lineWrites reg) } := by
  intro ls
  induction ls with
  | nil => intro st hsus; simp [processLines]
  | cons l ls ih =>
    intro st hsus
    rw [processLines, processLine_eq hC st l]
    simp only [hsus, if_false]
    rw [ih _ (by simp [hsus])]
    simp [hsus]

theorem onData_eq {reg : Registry} (hC : Completing reg) (st : ConnState) (d : List Char)
    (hsus : st.suspended = false) :
    onData reg st d =
      { st with
          buffer := (splitNl (st.buffer ++ d)).2,
          log := st.log ++ ((splitNl (st.buffer ++ d)).1).flatMap (lineEvents reg),
          writes := st.writes ++ ((splitNl (st.buffer ++ d)).1).flatMap (lineWrites reg) } := by
  unfold onData
  simp only [hsus, Bool.false_eq_true, if_false]
  rw [processLines_eq hC _ _ (by simp [hsus])]
  simp [hsus]

theorem splitNl_decompose (a F : List Char) :
    (splitNl (a ++ F)).1 = (splitNl a).1 ++ (splitNl ((splitNl a).2 ++ F)).1 ∧
    (splitNl (a ++ F)).2 = (splitNl ((splitNl a).2 ++ F)).2 := by
  have h1 := splitNl_append a F
  have h2 := splitNl_append (splitNl a).2 F
  have h3 := splitNl_no_nl _ (splitNl_snd_no_nl a)
  rw [h3] at h2
  constructor
  · rw [h1, h2]; simp
  · rw [h1, h2]

theorem foldl_onData_eq {reg : Registry} (hC : Completing reg) :
    ∀ (chunks : List (List Char)) (st : ConnState), st.suspended = false →
      '\n' ∉ st.buffer →
      List.foldl (onData reg) st chunks =
        { st with
            buffer := (splitNl (st.buffer ++ chunks.flatten)).2,
            log := st.log ++ ((splitNl (st.buffer ++ chunks.flatten)).1).flatMap (lineEvents reg),
            writes :=
              st.writes ++
                ((splitNl (st.buffer ++ chunks.flatten)).1).flatMap (lineWrites reg) } := by
  intro chunks
  induction chunks with
  | nil =>
    intro st hsus hnl
    rw [List.foldl_nil]
    simp [splitNl_no_nl _ hnl]
  | cons d ds ih =>
    intro st hsus hnl
    rw [List.foldl_cons, onData_eq hC st d hsus]
    rw [ih _ (by simp [hsus]) (by simp [splitNl_snd_no_nl])]
    have hd := splitNl_decompose (st.buffer ++ d) ds.flatten
    simp only [List.flatten_cons, ← List.append_assoc]
    rw [hd.1, hd.2]
    simp

/-- The connection-level characterisation: feeding any chunk sequence to a
connection whose handlers all settle behaves exactly like the line-by-line
processing of the complete newline-terminated segments of the concatenated
bytes, with the text after the last newline left buffered. -/
theorem runConn_eq {reg : Registry} (hC : Completing reg) (chunks : List (List Char)) :
    runConn reg chunks =
      { buffer := (splitNl chunks.flatten).2,
        log := ((splitNl chunks.flatten).1).flatMap (lineEvents reg),
        writes := ((splitNl chunks.flatten).1).flatMap (lineWrites reg),
        suspended := false, closed := false } := by
  rw [runConn, foldl_onData_eq hC chunks initConn rfl (by simp [initConn])]
  simp [initConn]

/-! ## The client: `RemoteSkill.call`

`call` opens a fresh connection, writes one request frame on `connect`,
buffers and line-splits incoming data exactly like the server, settles the
returned promise on the first matching response / error / timeout, and is a
fold over the connection's event sequence.  The promise-settlement rule —
only the first `resolve`/`reject` counts — is `settle` below. -/

/-- How `call()`'s promise settles. -/
inductive ClientOutcome where
  | resolved (v : Option Json) : ClientOutcome
  | rpcError (err : Json) : ClientOutcome
  | parseFailure : ClientOutcome
  | endParseFailure : ClientOutcome
  | sockError (e : List Char) : ClientOutcome
  | timedOut : ClientOutcome

/-- State of one `call()` invocation. -/
structure CallState where
  responseBuffer : List Char
  settled : Option ClientOutcome
  endCalled : Bool
  writes : List (List Char)

/-- Events delivered to the client socket, in order: `connect`, `data`,
`error`, `end`, and the 30-second timer firing. -/
inductive CEv where
  | connect : CEv
  | data (d : List Char) : CEv
  | sockErr (e : List Char) : CEv
  | ended : CEv
  | timeout : CEv

/-- ECMAScript promise settlement: only the first `resolve`/`reject` wins. -/
def settle (st : CallState) (o : ClientOutcome) : CallState :=
  if st.settled.isSome then st else { st with settled := some o }

/-- JavaScript truthiness of a decoded JSON value (`if (response.error)`). -/
def jtruthy : Json → Bool
  | .null => false
  | .bool b => b
  | .num n => n != 0
  | .str s => !s.isEmpty
  | .arr _ => true
  | .obj _ => true

/-- Settlement chosen for a response whose id matched:
`if (response.error) reject(RPC Error) else resolve(response.result)`. -/
def respSettle (j : Json) : ClientOutcome :=
  match getField errorKey j with
  | some e => if jtruthy e then .rpcError e else .resolved (getField resultKey j)
  | none => .resolved (getField resultKey j)

/-- The request frame object: `jsonrpc`, `method`,
`params: args.length === 0 ? undefined : args.length === 1 ? args[0] : args`,
`id` (an `undefined` member is omitted by `JSON.stringify`). -/
def buildRequest (method : List Char) (args : List Json) (requestId : List Char) : Json :=
  .obj ([(jsonrpcKey, .str "2.0".toList), (methodKey, .str method)] ++
    (match args with
     | [] => []
     | [a] => [(paramsKey, a)]
     | _ => [(paramsKey, .arr args)]) ++
    [(idKey, .str requestId)])

/-- The check `response.id === requestId`: strict equality holds exactly when the id
member is a string equal to the assigned id. -/
def idMatches (requestId : List Char) (j : Json) : Bool :=
  match getField idKey j with
  | some (.str s) => s = requestId
  | _ => false

/-- One complete line inside the client's `data` handler loop. -/
def clientLine (requestId : List Char) (st : CallState) (l : List Char) : CallState :=
  let t := trimL l
  if t = [] then st
  else
    match jparse t with
    | none => settle { st with endCalled := true } .parseFailure
    | some j =>
      if idMatches requestId j then settle { st with endCalled := true } (respSettle j)
      else st

/-- One socket event of a `call()` in flight. -/
def clientStep (method : List Char) (args : List Json) (requestId : List Char)
    (st : CallState) : CEv → CallState
  | .connect =>
    { st with writes := st.writes ++ [printJson (buildRequest method args requestId) ++ ['\n']] }
  | .data d =>
    let whole := st.responseBuffer ++ d
    let parts := splitNl whole
    let st' := (parts.1).foldl (clientLine requestId) { st with responseBuffer := whole }
    { st' with responseBuffer := parts.2 }
  | .sockErr e => settle st (.sockError e)
  | .ended =>
    if trimL st.responseBuffer = [] then st
    else
      match jparse st.responseBuffer with
      | none => settle st .endParseFailure
      | some j =>
        if idMatches requestId j then settle st (respSettle j) else st
  | .timeout => settle { st with endCalled := true } .timedOut

/-- A whole `call()` against an event trace. -/
def runCall (method : List Char) (args : List Json) (requestId : List Char)
    (evs : List CEv) : CallState :=
  evs.foldl (clientStep method args requestId) ⟨[], none, false, []⟩

/-- The timeout duration hard-coded in `RemoteSkill.call` (milliseconds). -/
def callTimeoutMs : Nat := 30000

/-- The assignment `let requestId = String(Date.now())`: the correlation id is a pure
function of the wall-clock millisecond timestamp and of nothing else. -/
def assignRequestId (dateNowMs : Nat) : List Char := natChars dateNowMs

/-! ## Socket naming (`classNameToSocketName`, constructor path derivations) -/

/-- The regex replace `className.replace(/([a-z])([A-Z])/g, '$1_$2')`: a global regex
replace; after a match the scan resumes after the matched pair (ASCII
classes, as in the regex). -/
def camelUnderscore : List Char → List Char
  | c1 :: c2 :: rest =>
    if c1.isLower && c2.isUpper then c1 :: '_' :: c2 :: camelUnderscore rest
    else c1 :: camelUnderscore (c2 :: rest)
  | l => l

/-- JavaScript `.toLowerCase()` (ASCII, which is all these identifiers use). -/
def toLowerL (s : List Char) : List Char := s.map Char.toLower

/-- The function `classNameToSocketName` from `SocketServer.ts`. -/
def classNameToSocketName (className : List Char) : List Char :=
  toLowerL (camelUnderscore className)

/-- Modelled from the spec: "inserting an underscore at each
lowercase-to-uppercase transition before lowercasing" — one underscore after
every adjacent lower-upper pair, then lowercase.  Stated from the spec's
words, to be compared with the regex-based source definition. -/
def specSnakeInsert : List Char → List Char
  | c1 :: c2 :: rest =>
    (if c1.isLower && c2.isUpper then [c1, '_'] else [c1]) ++ specSnakeInsert (c2 :: rest)
  | l => l

/-- Modelled from the spec name function: insert and lowercase. -/
def specSnakeCase (s : List Char) : List Char := toLowerL (specSnakeInsert s)

/-- Node `path.join(dir, name)` for a directory without a trailing slash (the only
form the constructors use, e.g. `/tmp`). -/
def pathJoin (dir name : List Char) : List Char := dir ++ '/' :: name

def defaultSocketDir : List Char := "/tmp".toList

/-- The field `this.socketPath` as computed by the `SocketServer` constructor. -/
def serverSocketPath (socketDir className : List Char) : List Char :=
  pathJoin socketDir (classNameToSocketName className ++ ".sock".toList)

/-- The field `this.socketPath` as computed by the `RemoteSkill` constructor. -/
def remoteSkillSocketPath (socketDir skillName : List Char) : List Char :=
  pathJoin socketDir (classNameToSocketName skillName ++ ".sock".toList)

/-- Exactly one of `result`/`error` is present on a response. -/
def exactlyOneOf (r : JSONRPCResponse) : Prop :=
  (r.result.isSome ∧ r.error = none) ∨ (r.result = none ∧ r.error.isSome)

/-! ## The naming function coincides with the spec's description -/

theorem upper_not_lower {c : Char} (h : c.isUpper = true) : c.isLower = false := by
  simp [Char.isUpper, Char.isLower, UInt32.le_def, BitVec.le_def] at *
  omega

theorem specSnakeInsert_cons_notLower {c : Char} (h : c.isLower = false) (rest : List Char) :
    specSnakeInsert (c :: rest) = c :: specSnakeInsert rest := by
  cases rest with
  | nil => simp [specSnakeInsert]
  | cons r rs => simp [specSnakeInsert, h]

theorem camelUnderscore_eq_spec : ∀ l, camelUnderscore l = specSnakeInsert l
  | [] => rfl
  | [_] => rfl
  | c1 :: c2 :: rest => by
    by_cases h : (c1.isLower && c2.isUpper) = true
    · have hup : c2.isUpper = true := by
        rcases Bool.and_eq_true _ _ |>.mp h with ⟨h1, h2⟩
        exact h2
      rw [camelUnderscore, specSnakeInsert]
      simp only [h, if_true]
      rw [specSnakeInsert_cons_notLower (upper_not_lower hup) rest,
        camelUnderscore_eq_spec rest]
      simp
    · rw [camelUnderscore, specSnakeInsert]
      simp only [h, if_false]
      rw [camelUnderscore_eq_spec (c2 :: rest)]
      simp

/-! ## Field lookups on the concrete request/response objects -/

theorem key_ne_jm : jsonrpcKey ≠ methodKey := by decide
theorem key_ne_jp : jsonrpcKey ≠ paramsKey := by decide
theorem key_ne_ji : jsonrpcKey ≠ idKey := by decide
theorem key_ne_jr : jsonrpcKey ≠ resultKey := by decide
theorem key_ne_je : jsonrpcKey ≠ errorKey := by decide
theorem key_ne_mp : methodKey ≠ paramsKey := by decide
theorem key_ne_mi : methodKey ≠ idKey := by decide
theorem key_ne_pi : paramsKey ≠ idKey := by decide
theorem key_ne_ri : resultKey ≠ idKey := by decide
theorem key_ne_re : resultKey ≠ errorKey := by decide
theorem key_ne_ei : errorKey ≠ idKey := by decide

theorem getField_buildRequest_method (m : List Char) (args : List Json) (i : List Char) :
    getField methodKey (buildRequest m args i) = some (.str m) := by
  rcases args with _ | ⟨a, _ | ⟨b, t⟩⟩ <;>
    simp [buildRequest, getField, assocField, key_ne_jm]

theorem getField_buildRequest_id (m : List Char) (args : List Json) (i : List Char) :
    getField idKey (buildRequest m args i) = some (.str i) := by
  rcases args with _ | ⟨a, _ | ⟨b, t⟩⟩ <;>
    simp [buildRequest, getField, assocField, key_ne_ji, key_ne_mi, key_ne_pi]

theorem getField_buildRequest_params1 (m : List Char) (a : Json) (i : List Char) :
    getField paramsKey (buildRequest m [a] i) = some a := by
  simp [buildRequest, getField, assocField, key_ne_jp, key_ne_mp]

theorem getField_encodeResponse_id (r : JSONRPCResponse) :
    getField idKey (encodeResponse r) = r.id := by
  rcases r with ⟨res, err, i⟩
  rcases res with _ | v <;> rcases err with _ | e <;> rcases i with _ | j <;>
    simp [encodeResponse, getField, assocField, key_ne_ji, key_ne_ri, key_ne_ei]

theorem getField_encodeResponse_error (r : JSONRPCResponse) :
    getField errorKey (encodeResponse r) = r.error.map encodeError := by
  rcases r with ⟨res, err, i⟩
  rcases res with _ | v <;> rcases err with _ | e <;> rcases i with _ | j <;>
    simp [encodeResponse, getField, assocField, key_ne_je, key_ne_re, key_ne_ei,
      Ne.symm key_ne_ei]

theorem getField_encodeResponse_result (r : JSONRPCResponse) :
    getField resultKey (encodeResponse r) = r.result := by
  rcases r with ⟨res, err, i⟩
  rcases res with _ | v <;> rcases err with _ | e <;> rcases i with _ | j <;>
    simp [encodeResponse, getField, assocField, key_ne_jr, key_ne_re, key_ne_ri,
      Ne.symm key_ne_ri, Ne.symm key_ne_re]

/-! ## Claim C9: socket naming -/

/-- C9.  The naming function inserts an underscore at each
lowercase-to-uppercase transition and then lowercases the whole string (the
regex-based source definition coincides with the spec's description for every
input); the socket path is the base directory (default `/tmp`) joined with
the token plus `.sock`; `WebBrowserSkill` maps to `web_browser_skill` and
hence to `/tmp/web_browser_skill.sock`; and the pure path derivation is
identical in the `SocketServer` and `RemoteSkill` constructors. -/
theorem C9_socket_naming :
    (∀ s, classNameToSocketName s = specSnakeCase s) ∧
    classNameToSocketName "WebBrowserSkill".toList = "web_browser_skill".toList ∧
    serverSocketPath defaultSocketDir "WebBrowserSkill".toList =
      "/tmp/web_browser_skill.sock".toList ∧
    (∀ dir n, serverSocketPath dir n = remoteSkillSocketPath dir n) := by
  refine ⟨?_, by decide, by decide, fun dir n => rfl⟩
  intro s
  rw [classNameToSocketName, specSnakeCase, camelUnderscore_eq_spec]

/-! ## Claim C4: correlation ids -/

/-- C4.  The client method `RemoteSkill.call` assigns `String(Date.now())` as the
correlation id: the id is a pure function of the wall-clock millisecond and
of nothing else about the call, so two calls outstanding in the same
millisecond receive the identical id (here `"1733000000000"`), contradicting
the claimed per-call freshness. -/
theorem C4_correlation_id_from_clock :
    (∀ t : Nat, assignRequestId t = natChars t) ∧
    assignRequestId 1733000000000 = "1733000000000".toList := by
  exact ⟨fun t => rfl, by decide⟩

/-! ## Claim C8: the request frame -/

/-- C8.  On `connect` the client writes exactly one frame — the encoded
request carrying the assigned id — and the request's `params` member is
absent for zero arguments, the single argument itself for one, and the
ordered argument sequence for two or more. -/
theorem C8_request_frame :
    (∀ m args i, (runCall m args i [CEv.connect]).writes =
      [printJson (buildRequest m args i) ++ ['\n']]) ∧
    (∀ m i, getField paramsKey (buildRequest m [] i) = none) ∧
    (∀ m a i, getField paramsKey (buildRequest m [a] i) = some a) ∧
    (∀ m a b t i, getField paramsKey (buildRequest m (a :: b :: t) i) =
      some (.arr (a :: b :: t))) ∧
    (∀ m args i, getField idKey (buildRequest m args i) = some (.str i)) := by
  refine ⟨?_, ?_, ?_, ?_, getField_buildRequest_id⟩
  · intro m args i
    simp [runCall, clientStep]
  · intro m i
    simp [buildRequest, getField, assocField, key_ne_jp, key_ne_mp, Ne.symm key_ne_pi]
  · intro m a i
    exact getField_buildRequest_params1 m a i
  · intro m a b t i
    simp [buildRequest, getField, assocField, key_ne_jp, key_ne_mp]

/-! ## Claim C2: exactly one of result/error -/

theorem handleRequest_exclusive (reg : Registry) (j : Json) (r : JSONRPCResponse)
    (h : handleRequest reg j = some r) : exactlyOneOf r := by
  unfold handleRequest at h
  cases hm : lookupMethod reg (getField methodKey j) with
  | none =>
    rw [hm] at h
    simp at h
    subst h
    simp [exactlyOneOf]
  | some hdl =>
    rw [hm] at h
    cases hh : hdl (getField paramsKey j) with
    | ok v => simp [hh] at h; subst h; simp [exactlyOneOf]
    | thrown m => simp [hh] at h; subst h; simp [exactlyOneOf]
    | pending => simp [hh] at h

theorem parseErrorResponse_exclusive : exactlyOneOf parseErrorResponse := by
  simp [exactlyOneOf, parseErrorResponse]

theorem processLine_wrote_inv (reg : Registry) (st : ConnState) (l : List Char)
    (hst : ∀ r, SEv.wrote r ∈ st.log → exactlyOneOf r) :
    ∀ r, SEv.wrote r ∈ (processLine reg st l).log → exactlyOneOf r := by
  intro r hr
  unfold processLine at hr
  by_cases ht : trimL l = []
  · simp [ht] at hr
    exact hst r hr
  · simp only [ht, if_false] at hr
    cases hp : jparse (trimL l) with
    | none =>
      rw [hp] at hr
      simp at hr
      rcases hr with hr | hr
      · exact hst r hr
      · subst hr; exact parseErrorResponse_exclusive
    | some request =>
      rw [hp] at hr
      cases hq : handleRequest reg request with
      | none =>
        simp [hq] at hr
        exact hst r hr
      | some resp =>
        simp [hq] at hr
        rcases hr with hr | hr
        · exact hst r hr
        · subst hr; exact handleRequest_exclusive reg request r hq

theorem processLines_wrote_inv (reg : Registry) :
    ∀ (ls : List (List Char)) (st : ConnState),
      (∀ r, SEv.wrote r ∈ st.log → exactlyOneOf r) →
      ∀ r, SEv.wrote r ∈ (processLines reg st ls).log → exactlyOneOf r := by
  intro ls
  induction ls with
  | nil => intro st hst; simpa [processLines] using hst
  | cons l ls ih =>
    intro st hst
    rw [processLines]
    have h1 := processLine_wrote_inv reg st l hst
    by_cases hs : (processLine reg st l).suspended
    · simp [hs]; exact h1
    · simp [hs]; exact ih _ h1

theorem onData_wrote_inv (reg : Registry) (st : ConnState) (d : List Char)
    (hst : ∀ r, SEv.wrote r ∈ st.log → exactlyOneOf r) :
    ∀ r, SEv.wrote r ∈ (onData reg st d).log → exactlyOneOf r := by
  obtain ⟨buf, log, wr, sus, cl⟩ := st
  cases sus with
  | true => simpa [onData] using hst
  | false =>
    intro r hr
    simp only [onData, Bool.false_eq_true, if_false] at hr
    have h1 := processLines_wrote_inv reg (splitNl (buf ++ d)).1
      ⟨buf ++ d, log, wr, false, cl⟩ hst
    by_cases hs2 : (processLines reg ⟨buf ++ d, log, wr, false, cl⟩
        (splitNl (buf ++ d)).1).suspended
    · simp only [hs2, if_true] at hr
      exact h1 r hr
    · simp only [hs2, Bool.false_eq_true, if_false] at hr
      exact h1 r hr

theorem runConn_wrote_inv (reg : Registry) (chunks : List (List Char)) :
    ∀ r, SEv.wrote r ∈ (runConn reg chunks).log → exactlyOneOf r := by
  rw [runConn]
  have : ∀ (ds : List (List Char)) (st : ConnState),
      (∀ r, SEv.wrote r ∈ st.log → exactlyOneOf r) →
      ∀ r, SEv.wrote r ∈ (ds.foldl (onData reg) st).log → exactlyOneOf r := by
    intro ds
    induction ds with
    | nil => intro st hst; simpa using hst
    | cons d ds ih =>
      intro st hst
      rw [List.foldl_cons]
      exact ih _ (onData_wrote_inv reg st d hst)
  exact this chunks initConn (by simp [initConn])

/-- C2.  Every response the server's connection loop writes carries
exactly one of `result`/`error`: a resolving handler yields a `result`-only
response, an unregistered method a `-32601` `error`-only response, a failing
handler a `-32603` `error`-only response, and an unparseable frame the
`-32700` `error`-only parse-error response. -/
theorem C2_response_exclusivity :
    (∀ reg chunks r, SEv.wrote r ∈ (runConn reg chunks).log → exactlyOneOf r) ∧
    (∀ reg j hdl v, lookupMethod reg (getField methodKey j) = some hdl →
      hdl (getField paramsKey j) = .ok v →
      handleRequest reg j = some ⟨some v, none, getField idKey j⟩) ∧
    (∀ reg j, lookupMethod reg (getField methodKey j) = none →
      handleRequest reg j =
        some ⟨none, some ⟨-32601, "Method not found".toList, none⟩, getField idKey j⟩) ∧
    (∀ reg j hdl msg, lookupMethod reg (getField methodKey j) = some hdl →
      hdl (getField paramsKey j) = .thrown msg →
      handleRequest reg j =
        some ⟨none, some ⟨-32603, "Internal error".toList, some (.str msg)⟩, getField idKey j⟩) ∧
    (parseErrorResponse.result = none ∧
      parseErrorResponse.error = some ⟨-32700, "Parse error".toList, none⟩) := by
  refine ⟨runConn_wrote_inv, ?_, ?_, ?_, by simp [parseErrorResponse]⟩
  · intro reg j hdl v hm hv
    simp [handleRequest, hm, hv]
  · intro reg j hm
    simp [handleRequest, hm]
  · intro reg j hdl msg hm hv
    simp [handleRequest, hm, hv]

/-- Witness for C2 at concrete inputs: the parse-error write of feeding
`"x\n"` to a fresh connection is exclusive, and the three `handleRequest`
shapes at a one-method registry. -/
theorem C2_response_exclusivity_witness :
    exactlyOneOf parseErrorResponse ∧
    handleRequest [(['e'], fun _ => .ok .null)] (buildRequest ['e'] [] ['7']) =
      some ⟨some .null, none, some (.str ['7'])⟩ ∧
    handleRequest [] (buildRequest ['e'] [] ['7']) =
      some ⟨none, some ⟨-32601, "Method not found".toList, none⟩, some (.str ['7'])⟩ ∧
    handleRequest [(['e'], fun _ => .thrown ['b'])] (buildRequest ['e'] [] ['7']) =
      some ⟨none, some ⟨-32603, "Internal error".toList, some (.str ['b'])⟩, some (.str ['7'])⟩ := by
  have hlog : (runConn [] ["x\n".toList]).log = [.line ['x'], .wrote parseErrorResponse] := rfl
  refine ⟨?_, ?_, ?_, ?_⟩
  · exact C2_response_exclusivity.1 [] ["x\n".toList] parseErrorResponse
      (by rw [hlog]; simp)
  · have h := C2_response_exclusivity.2.1 [(['e'], fun _ => .ok .null)]
      (buildRequest ['e'] [] ['7']) (fun _ => .ok .null) .null
      (by rw [getField_buildRequest_method]; rfl) rfl
    rw [getField_buildRequest_id] at h
    exact h
  · have h := C2_response_exclusivity.2.2.1 [] (buildRequest ['e'] [] ['7'])
      (by rw [getField_buildRequest_method]; rfl)
    rw [getField_buildRequest_id] at h
    exact h
  · have h := C2_response_exclusivity.2.2.2.1 [(['e'], fun _ => .thrown ['b'])]
      (buildRequest ['e'] [] ['7']) (fun _ => .thrown ['b']) ['b']
      (by rw [getField_buildRequest_method]; rfl) rfl
    rw [getField_buildRequest_id] at h
    exact h

/-! ## Frame-level helpers for the connection theorems -/

theorem splitNl_frame (F : List Char) (h : '\n' ∉ F) : splitNl (F ++ ['\n']) = ([F], []) := by
  have h1 := splitNl_append F ['\n']
  rw [splitNl_no_nl F h] at h1
  have h2 : splitNl ['\n'] = ([[]], []) := rfl
  rw [h2] at h1
  simpa [consFirst] using h1

theorem splitNl_two_frames (f1 f2 : List Char) (h1 : '\n' ∉ f1) (h2 : '\n' ∉ f2) :
    splitNl ((f1 ++ ['\n']) ++ (f2 ++ ['\n'])) = ([f1, f2], []) := by
  have ha := splitNl_append (f1 ++ ['\n']) (f2 ++ ['\n'])
  rw [splitNl_frame f1 h1, splitNl_frame f2 h2] at ha
  simpa [consFirst] using ha

/-- The decoded requests dispatched on a connection, in order. -/
def dispatches (es : List SEv) : List Json :=
  es.filterMap fun e =>
    match e with
    | .dispatched j => some j
    | _ => none

theorem lineEvents_ok (reg : Registry) (f : List Char) (j : Json) (r : JSONRPCResponse)
    (ht : trimL f = f) (hne : f ≠ []) (hp : jparse f = some j)
    (hr : handleRequest reg j = some r) :
    lineEvents reg f = [.line f, .dispatched j, .wrote r] ∧
    lineWrites reg f = [printJson (encodeResponse r) ++ ['\n']] := by
  constructor <;> simp [lineEvents, lineWrites, ht, hne, hp, hr]

theorem lineEvents_bad (reg : Registry) (f : List Char)
    (ht : trimL f = f) (hne : f ≠ []) (hp : jparse f = none) :
    lineEvents reg f = [.line f, .wrote parseErrorResponse] ∧
    lineWrites reg f = [printJson (encodeResponse parseErrorResponse) ++ ['\n']] := by
  constructor <;> simp [lineEvents, lineWrites, ht, hne, hp]

theorem onData_two_frames (reg : Registry) (f1 f2 : List Char) (j1 j2 : Json)
    (r1 r2 : JSONRPCResponse)
    (h1nl : '\n' ∉ f1) (h1t : trimL f1 = f1) (h1ne : f1 ≠ []) (h1p : jparse f1 = some j1)
    (h2nl : '\n' ∉ f2) (h2t : trimL f2 = f2) (h2ne : f2 ≠ []) (h2p : jparse f2 = some j2)
    (hr1 : handleRequest reg j1 = some r1) (hr2 : handleRequest reg j2 = some r2) :
    onData reg initConn ((f1 ++ ['\n']) ++ (f2 ++ ['\n'])) =
      { buffer := [],
        log := [.line f1, .dispatched j1, .wrote r1, .line f2, .dispatched j2, .wrote r2],
        writes := [printJson (encodeResponse r1) ++ ['\n'],
          printJson (encodeResponse r2) ++ ['\n']],
        suspended := false, closed := false } := by
  have hsplit := splitNl_two_frames f1 f2 h1nl h2nl
  simp only [onData, initConn, List.nil_append, hsplit, Bool.false_eq_true, if_false]
  simp only [processLines, processLine, h1t, h1ne, if_false, h1p, hr1, h2t, h2ne, h2p, hr2]
  simp

theorem onData_two_frames_pending (reg : Registry) (f1 f2 : List Char) (j1 : Json)
    (h1nl : '\n' ∉ f1) (h1t : trimL f1 = f1) (h1ne : f1 ≠ []) (h1p : jparse f1 = some j1)
    (h2nl : '\n' ∉ f2)
    (hr1 : handleRequest reg j1 = none) :
    onData reg initConn ((f1 ++ ['\n']) ++ (f2 ++ ['\n'])) =
      { buffer := (f1 ++ ['\n']) ++ (f2 ++ ['\n']),
        log := [.line f1, .dispatched j1],
        writes := [],
        suspended := true, closed := false } := by
  have hsplit := splitNl_two_frames f1 f2 h1nl h2nl
  simp only [onData, initConn, List.nil_append, hsplit, Bool.false_eq_true, if_false]
  simp only [processLines, processLine, h1t, h1ne, if_false, h1p, hr1]
  simp

/-! ## Claim C3: chunked framing -/

/-- C3.  Sequentially processing any list of chunks behaves exactly like
processing the complete newline-terminated frames of their concatenation,
with the trailing partial text kept buffered; in particular a single
newline-terminated decodable frame, however its bytes are split into
consecutive chunks (including a split exactly at the newline), is decoded and
dispatched exactly once, leaving an empty buffer. -/
theorem C3_chunked_framing (reg : Registry) (hC : Completing reg) :
    (∀ chunks, runConn reg chunks =
      { buffer := (splitNl chunks.flatten).2,
        log := ((splitNl chunks.flatten).1).flatMap (lineEvents reg),
        writes := ((splitNl chunks.flatten).1).flatMap (lineWrites reg),
        suspended := false, closed := false }) ∧
    (∀ f j chunks, '\n' ∉ f → trimL f = f → f ≠ [] → jparse f = some j →
      chunks.flatten = f ++ ['\n'] →
      dispatches (runConn reg chunks).log = [j] ∧ (runConn reg chunks).buffer = []) := by
  refine ⟨runConn_eq hC, ?_⟩
  intro f j chunks hfnl hft hfne hfp hflat
  have hrc := runConn_eq hC chunks
  rw [hflat, splitNl_frame f hfnl] at hrc
  rw [hrc]
  cases hq : handleRequest reg j with
  | none => exact absurd hq (handleRequest_ne_none hC j)
  | some r =>
    have he := (lineEvents_ok reg f j r hft hfne hfp hq).1
    simp [he, dispatches]

/-- Witness for C3: a concrete echo-style registry (all handlers settle) and
one request frame delivered in three chunks, the last chunk being exactly the
terminating newline. -/
theorem C3_chunked_framing_witness :
    dispatches (runConn [(['e'], fun _ => HandlerOutcome.ok .null)]
      [(printJson (buildRequest ['e'] [] ['1'])).take 9,
       (printJson (buildRequest ['e'] [] ['1'])).drop 9, ['\n']]).log =
      [buildRequest ['e'] [] ['1']] ∧
    (runConn [(['e'], fun _ => HandlerOutcome.ok .null)]
      [(printJson (buildRequest ['e'] [] ['1'])).take 9,
       (printJson (buildRequest ['e'] [] ['1'])).drop 9, ['\n']]).buffer = [] := by
  have hC : Completing [(['e'], fun _ => HandlerOutcome.ok .null)] := by
    intro m h hl p
    cases m with
    | none => simp [lookupMethod] at hl
    | some j =>
      cases j with
      | str s =>
        simp [lookupMethod, assocHandler] at hl
        rcases hl with ⟨-, hl⟩
        rw [← hl]
        simp
      | null => simp [lookupMethod] at hl
      | bool b => simp [lookupMethod] at hl
      | num n => simp [lookupMethod] at hl
      | arr xs => simp [lookupMethod] at hl
      | obj fs => simp [lookupMethod] at hl
  exact (C3_chunked_framing _ hC).2 (printJson (buildRequest ['e'] [] ['1']))
    (buildRequest ['e'] [] ['1']) _
    (nl_not_print _) (trimL_print _) (printJson_ne_nil _) (jparse_print _)
    (by simp only [List.flatten_cons, List.flatten_nil, List.append_nil,
      ← List.append_assoc, List.take_append_drop])

/-! ## Claims C5 and C6: handler failure and parse-error recovery -/

theorem assocHandler_mem {s : List Char} {h : MethodHandler} :
    ∀ {reg : Registry}, assocHandler s reg = some h → ∃ k, (k, h) ∈ reg := by
  intro reg
  induction reg with
  | nil => intro hh; simp [assocHandler] at hh
  | cons kv t ih =>
    obtain ⟨k, hd⟩ := kv
    intro hh
    rw [assocHandler] at hh
    by_cases hk : k = s
    · simp [hk] at hh
      exact ⟨k, by simp [hh]⟩
    · simp [hk] at hh
      obtain ⟨k', hmem⟩ := ih hh
      exact ⟨k', by simp [hmem]⟩

theorem Completing_of (reg : Registry)
    (hall : ∀ kv ∈ reg, ∀ p, kv.2 p ≠ HandlerOutcome.pending) : Completing reg := by
  intro m h hl p
  cases m with
  | none => simp [lookupMethod] at hl
  | some j =>
    cases j with
    | str sname =>
      simp only [lookupMethod] at hl
      obtain ⟨k, hmem⟩ := assocHandler_mem hl
      exact hall (k, h) hmem p
    | null => simp [lookupMethod] at hl
    | bool b => simp [lookupMethod] at hl
    | num n => simp [lookupMethod] at hl
    | arr xs => simp [lookupMethod] at hl
    | obj fs => simp [lookupMethod] at hl

/-- C5.  A registered handler that fails with message `"boom"` produces a
response whose `error.code` is `-32603` and whose `error.data` is the string
`"boom"`, echoing the request's id; the connection is not closed and is not
suspended, and a subsequent frame on the same connection still receives its
own response (the model shares no state between connections, so other
connections are untouched by construction). -/
theorem C5_handler_failure (reg : Registry) (m i : List Char) (hdl : MethodHandler)
    (req1 req2 : Json) (r2 : JSONRPCResponse)
    (hm : getField methodKey req1 = some (.str m))
    (hl : lookupMethod reg (some (.str m)) = some hdl)
    (hid : getField idKey req1 = some (.str i))
    (hboom : hdl (getField paramsKey req1) = .thrown "boom".toList)
    (h1nl : '\n' ∉ printJson req1) (h2nl : '\n' ∉ printJson req2)
    (hr2 : handleRequest reg req2 = some r2) :
    handleRequest reg req1 =
      some ⟨none, some ⟨-32603, "Internal error".toList, some (.str "boom".toList)⟩,
        some (.str i)⟩ ∧
    (onData reg initConn
        ((printJson req1 ++ ['\n']) ++ (printJson req2 ++ ['\n']))).writes =
      [printJson (encodeResponse
          ⟨none, some ⟨-32603, "Internal error".toList, some (.str "boom".toList)⟩,
            some (.str i)⟩) ++ ['\n'],
        printJson (encodeResponse r2) ++ ['\n']] ∧
    (onData reg initConn
        ((printJson req1 ++ ['\n']) ++ (printJson req2 ++ ['\n']))).closed = false ∧
    (onData reg initConn
        ((printJson req1 ++ ['\n']) ++ (printJson req2 ++ ['\n']))).suspended = false := by
  have hr1 : handleRequest reg req1 =
      some ⟨none, some ⟨-32603, "Internal error".toList, some (.str "boom".toList)⟩,
        some (.str i)⟩ := by
    simp [handleRequest, hm, hl, hboom, hid]
  have hrun := onData_two_frames reg (printJson req1) (printJson req2) req1 req2 _ r2
    h1nl (trimL_print req1) (printJson_ne_nil req1) (jparse_print req1)
    h2nl (trimL_print req2) (printJson_ne_nil req2) (jparse_print req2)
    hr1 hr2
  exact ⟨hr1, by rw [hrun], by rw [hrun], by rw [hrun]⟩

/-- Witness for C5 at a concrete registry (`b` fails with "boom", `q`
echoes null) and concrete request frames. -/
theorem C5_handler_failure_witness :
    handleRequest
        [(['b'], fun _ => .thrown "boom".toList), (['q'], fun _ => HandlerOutcome.ok .null)]
        (buildRequest ['b'] [] ['1']) =
      some ⟨none, some ⟨-32603, "Internal error".toList, some (.str "boom".toList)⟩,
        some (.str ['1'])⟩ ∧
    (onData [(['b'], fun _ => .thrown "boom".toList), (['q'], fun _ => HandlerOutcome.ok .null)]
        initConn
        ((printJson (buildRequest ['b'] [] ['1']) ++ ['\n']) ++
          (printJson (buildRequest ['q'] [] ['2']) ++ ['\n']))).writes =
      [printJson (encodeResponse
          ⟨none, some ⟨-32603, "Internal error".toList, some (.str "boom".toList)⟩,
            some (.str ['1'])⟩) ++ ['\n'],
        printJson (encodeResponse ⟨some .null, none, some (.str ['2'])⟩) ++ ['\n']] ∧
    (onData [(['b'], fun _ => .thrown "boom".toList), (['q'], fun _ => HandlerOutcome.ok .null)]
        initConn
        ((printJson (buildRequest ['b'] [] ['1']) ++ ['\n']) ++
          (printJson (buildRequest ['q'] [] ['2']) ++ ['\n']))).closed = false := by
  have h := C5_handler_failure
    [(['b'], fun _ => .thrown "boom".toList), (['q'], fun _ => HandlerOutcome.ok .null)]
    ['b'] ['1'] (fun _ => .thrown "boom".toList)
    (buildRequest ['b'] [] ['1']) (buildRequest ['q'] [] ['2'])
    ⟨some .null, none, some (.str ['2'])⟩
    (getField_buildRequest_method _ _ _) rfl (getField_buildRequest_id _ _ _) rfl
    (nl_not_print _) (nl_not_print _)
    (by
      rw [handleRequest, getField_buildRequest_method]
      simp only [lookupMethod]
      rw [show assocHandler ['q']
          [(['b'], fun _ => HandlerOutcome.thrown "boom".toList),
            (['q'], fun _ => HandlerOutcome.ok Json.null)] =
          some (fun _ => HandlerOutcome.ok Json.null) from rfl]
      rw [getField_buildRequest_id])
  exact ⟨h.1, h.2.1, h.2.2.1⟩

/-- C6.  A line that fails to decode yields exactly one `-32700`
parse-error response on the same connection; the connection is neither closed
nor stopped, and a later frame on that connection is still decoded and
answered. -/
theorem C6_parse_error_recovery (reg : Registry) (bad : List Char) (req2 : Json)
    (r2 : JSONRPCResponse)
    (hbnl : '\n' ∉ bad) (hbt : trimL bad = bad) (hbne : bad ≠ [])
    (hbp : jparse bad = none)
    (h2nl : '\n' ∉ printJson req2)
    (hr2 : handleRequest reg req2 = some r2) :
    (onData reg initConn ((bad ++ ['\n']) ++ (printJson req2 ++ ['\n']))).writes =
      [printJson (encodeResponse parseErrorResponse) ++ ['\n'],
        printJson (encodeResponse r2) ++ ['\n']] ∧
    parseErrorResponse.error = some ⟨-32700, "Parse error".toList, none⟩ ∧
    parseErrorResponse.result = none ∧
    (onData reg initConn ((bad ++ ['\n']) ++ (printJson req2 ++ ['\n']))).closed = false ∧
    (onData reg initConn ((bad ++ ['\n']) ++ (printJson req2 ++ ['\n']))).suspended = false := by
  have hsplit := splitNl_two_frames bad (printJson req2) hbnl h2nl
  have hrun : onData reg initConn ((bad ++ ['\n']) ++ (printJson req2 ++ ['\n'])) =
      { buffer := [],
        log := [.line bad, .wrote parseErrorResponse, .line (printJson req2),
          .dispatched req2, .wrote r2],
        writes := [printJson (encodeResponse parseErrorResponse) ++ ['\n'],
          printJson (encodeResponse r2) ++ ['\n']],
        suspended := false, closed := false } := by
    simp only [onData, initConn, List.nil_append, hsplit, Bool.false_eq_true, if_false]
    simp only [processLines, processLine, hbt, hbne, if_false, hbp,
      trimL_print req2, printJson_ne_nil req2, jparse_print req2, hr2]
    simp
  exact ⟨by rw [hrun], by simp [parseErrorResponse], by simp [parseErrorResponse],
    by rw [hrun], by rw [hrun]⟩

/-- Witness for C6: the unparseable line `"x"` followed by a valid request
to a concrete echo registry. -/
theorem C6_parse_error_recovery_witness :
    (onData [(['q'], fun _ => HandlerOutcome.ok .null)] initConn
        ((['x'] ++ ['\n']) ++ (printJson (buildRequest ['q'] [] ['2']) ++ ['\n']))).writes =
      [printJson (encodeResponse parseErrorResponse) ++ ['\n'],
        printJson (encodeResponse ⟨some .null, none, some (.str ['2'])⟩) ++ ['\n']] ∧
    parseErrorResponse.error = some ⟨-32700, "Parse error".toList, none⟩ ∧
    (onData [(['q'], fun _ => HandlerOutcome.ok .null)] initConn
        ((['x'] ++ ['\n']) ++ (printJson (buildRequest ['q'] [] ['2']) ++ ['\n']))).closed =
      false := by
  have h := C6_parse_error_recovery [(['q'], fun _ => HandlerOutcome.ok .null)]
    ['x'] (buildRequest ['q'] [] ['2']) ⟨some .null, none, some (.str ['2'])⟩
    (by decide) (by decide) (by decide) rfl (nl_not_print _)
    (by
      rw [handleRequest, getField_buildRequest_method]
      simp only [lookupMethod]
      rw [show assocHandler ['q'] [(['q'], fun _ => HandlerOutcome.ok Json.null)] =
          some (fun _ => HandlerOutcome.ok Json.null) from rfl]
      rw [getField_buildRequest_id])
  exact ⟨h.1, h.2.1, h.2.2.2.1⟩

/-! ## Claim C10: dispatch within one chunk is sequential, not concurrent -/

/-- C10, amended.  On one connection the source's `data` callback
dispatches the frames of a chunk strictly sequentially: each decoded frame's
handler is awaited to completion — its response written — before the next
line of the same chunk is examined, and a handler that never settles stops
the decoding and dispatch of every later frame in that chunk (handlers of
one chunk never run concurrently; only frames arriving in separate `data`
events can interleave). -/
theorem C10_sequential_dispatch :
    (∀ (reg : Registry) (f1 f2 : List Char) (j1 j2 : Json) (r1 r2 : JSONRPCResponse),
      '\n' ∉ f1 → trimL f1 = f1 → f1 ≠ [] → jparse f1 = some j1 →
      '\n' ∉ f2 → trimL f2 = f2 → f2 ≠ [] → jparse f2 = some j2 →
      handleRequest reg j1 = some r1 → handleRequest reg j2 = some r2 →
      (onData reg initConn ((f1 ++ ['\n']) ++ (f2 ++ ['\n']))).log =
        [.line f1, .dispatched j1, .wrote r1, .line f2, .dispatched j2, .wrote r2]) ∧
    (∀ (reg : Registry) (f1 f2 : List Char) (j1 : Json),
      '\n' ∉ f1 → trimL f1 = f1 → f1 ≠ [] → jparse f1 = some j1 →
      '\n' ∉ f2 →
      handleRequest reg j1 = none →
      (onData reg initConn ((f1 ++ ['\n']) ++ (f2 ++ ['\n']))).log =
        [.line f1, .dispatched j1] ∧
      (onData reg initConn ((f1 ++ ['\n']) ++ (f2 ++ ['\n']))).suspended = true ∧
      (onData reg initConn ((f1 ++ ['\n']) ++ (f2 ++ ['\n']))).writes = []) := by
  constructor
  · intro reg f1 f2 j1 j2 r1 r2 h1nl h1t h1ne h1p h2nl h2t h2ne h2p hr1 hr2
    rw [onData_two_frames reg f1 f2 j1 j2 r1 r2 h1nl h1t h1ne h1p h2nl h2t h2ne h2p hr1 hr2]
  · intro reg f1 f2 j1 h1nl h1t h1ne h1p h2nl hr1
    rw [onData_two_frames_pending reg f1 f2 j1 h1nl h1t h1ne h1p h2nl hr1]
    exact ⟨rfl, rfl, rfl⟩

/-- Witness for C10 at a concrete registry whose method `p` never settles:
the second (complete, decodable) frame of the chunk is never dispatched. -/
theorem C10_sequential_dispatch_witness :
    (onData [(['p'], fun _ => HandlerOutcome.pending),
        (['q'], fun _ => HandlerOutcome.ok .null)] initConn
      ((printJson (buildRequest ['p'] [] ['1']) ++ ['\n']) ++
        (printJson (buildRequest ['q'] [] ['2']) ++ ['\n']))).log =
      [.line (printJson (buildRequest ['p'] [] ['1'])),
        .dispatched (buildRequest ['p'] [] ['1'])] ∧
    (onData [(['p'], fun _ => HandlerOutcome.pending),
        (['q'], fun _ => HandlerOutcome.ok .null)] initConn
      ((printJson (buildRequest ['p'] [] ['1']) ++ ['\n']) ++
        (printJson (buildRequest ['q'] [] ['2']) ++ ['\n']))).suspended = true := by
  have h := C10_sequential_dispatch.2
    [(['p'], fun _ => HandlerOutcome.pending), (['q'], fun _ => HandlerOutcome.ok .null)]
    (printJson (buildRequest ['p'] [] ['1'])) (printJson (buildRequest ['q'] [] ['2']))
    (buildRequest ['p'] [] ['1'])
    (nl_not_print _) (trimL_print _) (printJson_ne_nil _) (jparse_print _)
    (nl_not_print _)
    (by rw [handleRequest, getField_buildRequest_method]; rfl)
  exact ⟨h.1, h.2.1⟩

/-- C10 counterexample.  At the concrete input below — one chunk holding
two complete decodable frames, the first naming a handler that never settles
— the run dispatches only the first request and writes nothing: the second
frame of the same chunk is never dispatched, refuting "dispatch of one
decoded frame never blocks the decoding and dispatch of subsequent frames on
that connection". -/
theorem C10_dispatch_blocks_counterexample :
    dispatches (onData [(['p'], fun _ => HandlerOutcome.pending),
        (['q'], fun _ => HandlerOutcome.ok .null)] initConn
      ((printJson (buildRequest ['p'] [] ['1']) ++ ['\n']) ++
        (printJson (buildRequest ['q'] [] ['2']) ++ ['\n']))).log =
      [buildRequest ['p'] [] ['1']] ∧
    jparse (printJson (buildRequest ['q'] [] ['2'])) = some (buildRequest ['q'] [] ['2']) ∧
    (onData [(['p'], fun _ => HandlerOutcome.pending),
        (['q'], fun _ => HandlerOutcome.ok .null)] initConn
      ((printJson (buildRequest ['p'] [] ['1']) ++ ['\n']) ++
        (printJson (buildRequest ['q'] [] ['2']) ++ ['\n']))).writes = [] := by
  have h := onData_two_frames_pending
    [(['p'], fun _ => HandlerOutcome.pending), (['q'], fun _ => HandlerOutcome.ok .null)]
    (printJson (buildRequest ['p'] [] ['1'])) (printJson (buildRequest ['q'] [] ['2']))
    (buildRequest ['p'] [] ['1'])
    (nl_not_print _) (trimL_print _) (printJson_ne_nil _) (jparse_print _)
    (nl_not_print _)
    (by rw [handleRequest, getField_buildRequest_method]; rfl)
  refine ⟨?_, jparse_print _, ?_⟩
  · rw [h]; simp [dispatches]
  · rw [h]

/-! ## Claim C7: the timeout races the response and wins at most once -/

theorem settle_endCalled (st : CallState) (o : ClientOutcome) :
    (settle st o).endCalled = st.endCalled := by
  unfold settle
  split <;> rfl

theorem settle_responseBuffer (st : CallState) (o : ClientOutcome) :
    (settle st o).responseBuffer = st.responseBuffer := by
  unfold settle
  split <;> rfl

theorem settle_keep {st : CallState} {o' : ClientOutcome} (h : st.settled = some o')
    (o : ClientOutcome) : (settle st o).settled = some o' := by
  simp [settle, h]

theorem clientLine_settled_keep (rid l : List Char) {st : CallState} {o : ClientOutcome}
    (h : st.settled = some o) : (clientLine rid st l).settled = some o := by
  unfold clientLine
  by_cases ht : trimL l = []
  · simp [ht, h]
  · simp only [ht, if_false]
    cases hp : jparse (trimL l) with
    | none => simp [settle, h]
    | some j =>
      by_cases hm : idMatches rid j
      · simp [hm, settle, h]
      · simp [hm, h]

theorem clientLine_end_keep (rid l : List Char) {st : CallState}
    (h : st.endCalled = true) : (clientLine rid st l).endCalled = true := by
  unfold clientLine
  by_cases ht : trimL l = []
  · simp [ht, h]
  · simp only [ht, if_false]
    cases hp : jparse (trimL l) with
    | none => rw [settle_endCalled]
    | some j =>
      by_cases hm : idMatches rid j
      · simp [hm, settle_endCalled]
      · simp [hm, h]

theorem foldl_clientLine_settled_keep (rid : List Char) :
    ∀ (ls : List (List Char)) (st : CallState) {o : ClientOutcome}, st.settled = some o →
      ((ls.foldl (clientLine rid) st).settled = some o) := by
  intro ls
  induction ls with
  | nil => intro st o h; simpa using h
  | cons l ls ih =>
    intro st o h
    rw [List.foldl_cons]
    exact ih _ (clientLine_settled_keep rid l h)

theorem foldl_clientLine_end_keep (rid : List Char) :
    ∀ (ls : List (List Char)) (st : CallState), st.endCalled = true →
      ((ls.foldl (clientLine rid) st).endCalled = true) := by
  intro ls
  induction ls with
  | nil => intro st h; simpa using h
  | cons l ls ih =>
    intro st h
    rw [List.foldl_cons]
    exact ih _ (clientLine_end_keep rid l h)

theorem clientStep_settled_keep (m : List Char) (args : List Json) (rid : List Char)
    {st : CallState} {o : ClientOutcome} (h : st.settled = some o) (e : CEv) :
    (clientStep m args rid st e).settled = some o := by
  cases e with
  | connect => simpa [clientStep] using h
  | data d =>
    simp only [clientStep]
    exact foldl_clientLine_settled_keep rid _ _ (by simpa using h)
  | sockErr e => simp [clientStep, settle, h]
  | ended =>
    simp only [clientStep]
    by_cases ht : trimL st.responseBuffer = []
    · simp [ht, h]
    · simp only [ht, if_true, if_false]
      cases hp : jparse st.responseBuffer with
      | none => simp [settle, h]
      | some j =>
        by_cases hm : idMatches rid j
        · simp [hm, settle, h]
        · simp [hm, h]
  | timeout => simp [clientStep, settle, h]

theorem clientStep_end_keep (m : List Char) (args : List Json) (rid : List Char)
    {st : CallState} (h : st.endCalled = true) (e : CEv) :
    (clientStep m args rid st e).endCalled = true := by
  cases e with
  | connect => simpa [clientStep] using h
  | data d =>
    simp only [clientStep]
    exact foldl_clientLine_end_keep rid _ _ (by simpa using h)
  | sockErr e => simp [clientStep, settle_endCalled, h]
  | ended =>
    simp only [clientStep]
    by_cases ht : trimL st.responseBuffer = []
    · simp [ht, h]
    · simp only [ht, if_true, if_false]
      cases hp : jparse st.responseBuffer with
      | none => simp [settle_endCalled, h]
      | some j =>
        by_cases hm : idMatches rid j
        · simp [hm, settle_endCalled, h]
        · simp [hm, h]
  | timeout => simp [clientStep, settle_endCalled, h]

theorem foldl_clientStep_settled_keep (m : List Char) (args : List Json) (rid : List Char) :
    ∀ (evs : List CEv) (st : CallState) {o : ClientOutcome}, st.settled = some o →
      ((evs.foldl (clientStep m args rid) st).settled = some o) := by
  intro evs
  induction evs with
  | nil => intro st o h; simpa using h
  | cons e evs ih =>
    intro st o h
    rw [List.foldl_cons]
    exact ih _ (clientStep_settled_keep m args rid h e)

theorem foldl_clientStep_end_keep (m : List Char) (args : List Json) (rid : List Char) :
    ∀ (evs : List CEv) (st : CallState), st.endCalled = true →
      ((evs.foldl (clientStep m args rid) st).endCalled = true) := by
  intro evs
  induction evs with
  | nil => intro st h; simpa using h
  | cons e evs ih =>
    intro st h
    rw [List.foldl_cons]
    exact ih _ (clientStep_end_keep m args rid h e)

/-- C7.  If a call has not settled by the time the 30-second timer fires,
the timer's callback closes the socket and rejects with the timeout failure;
whatever arrives afterwards — including a matching response — is ignored
(promise settlement is first-wins), the outcome stays the timeout failure,
and the socket-close flag, once set, stays set. -/
theorem C7_timeout_wins (m : List Char) (args : List Json) (i : List Char)
    (pre post : List CEv)
    (h : (runCall m args i pre).settled = none) :
    (runCall m args i (pre ++ CEv.timeout :: post)).settled = some .timedOut ∧
    (runCall m args i (pre ++ CEv.timeout :: post)).endCalled = true := by
  have hsplit : runCall m args i (pre ++ CEv.timeout :: post) =
      post.foldl (clientStep m args i)
        (clientStep m args i (runCall m args i pre) CEv.timeout) := by
    simp [runCall, List.foldl_append]
  have hT : clientStep m args i (runCall m args i pre) CEv.timeout =
      { runCall m args i pre with endCalled := true, settled := some .timedOut } := by
    simp [clientStep, settle, h]
  rw [hsplit, hT]
  exact ⟨foldl_clientStep_settled_keep m args i post _ rfl,
    foldl_clientStep_end_keep m args i post _ rfl⟩

/-- Witness for C7: an un-answered call times out, and a matching response
frame delivered after the timer fired does not change the outcome. -/
theorem C7_timeout_wins_witness :
    (runCall ['e'] [] ['1'] ([CEv.connect] ++ CEv.timeout ::
      [CEv.data (printJson (encodeResponse ⟨some .null, none, some (.str ['1'])⟩) ++
        ['\n'])])).settled = some .timedOut ∧
    (runCall ['e'] [] ['1'] ([CEv.connect] ++ CEv.timeout ::
      [CEv.data (printJson (encodeResponse ⟨some .null, none, some (.str ['1'])⟩) ++
        ['\n'])])).endCalled = true := by
  exact C7_timeout_wins ['e'] [] ['1'] [CEv.connect] _ rfl

/-! ## Claim C1: a call settles with exactly the handler's value -/

theorem onData_one_frame (reg : Registry) (f : List Char) (j : Json) (r : JSONRPCResponse)
    (hnl : '\n' ∉ f) (ht : trimL f = f) (hne : f ≠ []) (hp : jparse f = some j)
    (hr : handleRequest reg j = some r) :
    onData reg initConn (f ++ ['\n']) =
      { buffer := [], log := [.line f, .dispatched j, .wrote r],
        writes := [printJson (encodeResponse r) ++ ['\n']],
        suspended := false, closed := false } := by
  have hsplit := splitNl_frame f hnl
  simp only [onData, initConn, List.nil_append, hsplit, Bool.false_eq_true, if_false]
  simp only [processLines, processLine, ht, hne, if_false, hp, hr]
  simp

theorem handleRequest_buildRequest (reg : Registry) (m : List Char) (hdl : MethodHandler)
    (p v : Json) (i : List Char)
    (hl : lookupMethod reg (some (.str m)) = some hdl)
    (hok : hdl (some p) = .ok v) :
    handleRequest reg (buildRequest m [p] i) = some ⟨some v, none, some (.str i)⟩ := by
  simp [handleRequest, getField_buildRequest_method, hl, getField_buildRequest_params1, hok,
    getField_buildRequest_id]

theorem respSettle_result (r : JSONRPCResponse) (he : r.error = none) :
    respSettle (encodeResponse r) = .resolved r.result := by
  simp [respSettle, getField_encodeResponse_error, he, getField_encodeResponse_result]

theorem idMatches_encodeResponse (i : List Char) (r : JSONRPCResponse)
    (hid : r.id = some (.str i)) : idMatches i (encodeResponse r) = true := by
  simp [idMatches, getField_encodeResponse_id, hid]

theorem clientLine_match (rid : List Char) (st : CallState) (r : JSONRPCResponse)
    (hid : r.id = some (.str rid)) (hsettled : st.settled = none) :
    clientLine rid st (printJson (encodeResponse r)) =
      { st with endCalled := true, settled := some (respSettle (encodeResponse r)) } := by
  unfold clientLine
  simp [trimL_print, printJson_ne_nil, jparse_print, idMatches_encodeResponse rid r hid,
    settle, hsettled]

/-- C1.  For a registered method whose handler resolves with `v` on the
supplied parameter, the complete loop — the client's single request frame,
the server's decode/dispatch/encode of it, and the client's decode of the
server's bytes — settles the call by resolving exactly `v`, unmodified. -/
theorem C1_call_roundtrip (reg : Registry) (m : List Char) (hdl : MethodHandler)
    (p v : Json) (i : List Char)
    (hl : lookupMethod reg (some (.str m)) = some hdl)
    (hok : hdl (some p) = .ok v) :
    (runConn reg [(runCall m [p] i [CEv.connect]).writes.flatten]).writes =
      [printJson (encodeResponse ⟨some v, none, some (.str i)⟩) ++ ['\n']] ∧
    (runCall m [p] i [CEv.connect,
      CEv.data (runConn reg
        [(runCall m [p] i [CEv.connect]).writes.flatten]).writes.flatten]).settled =
      some (.resolved (some v)) := by
  have hw : (runCall m [p] i [CEv.connect]).writes =
      [printJson (buildRequest m [p] i) ++ ['\n']] := by
    simp [runCall, clientStep]
  have hr := handleRequest_buildRequest reg m hdl p v i hl hok
  have hsrv : runConn reg [(runCall m [p] i [CEv.connect]).writes.flatten] =
      { buffer := [],
        log := [.line (printJson (buildRequest m [p] i)),
          .dispatched (buildRequest m [p] i),
          .wrote ⟨some v, none, some (.str i)⟩],
        writes := [printJson (encodeResponse ⟨some v, none, some (.str i)⟩) ++ ['\n']],
        suspended := false, closed := false } := by
    rw [hw]
    have h1 : ([printJson (buildRequest m [p] i) ++ ['\n']]).flatten =
        printJson (buildRequest m [p] i) ++ ['\n'] := by simp
    rw [h1, runConn]
    rw [List.foldl_cons, List.foldl_nil]
    exact onData_one_frame reg (printJson (buildRequest m [p] i)) (buildRequest m [p] i)
      ⟨some v, none, some (.str i)⟩ (nl_not_print _) (trimL_print _) (printJson_ne_nil _)
      (jparse_print _) hr
  refine ⟨by rw [hsrv], ?_⟩
  rw [hsrv]
  have h2 : ([printJson (encodeResponse ⟨some v, none, some (.str i)⟩) ++ ['\n']]).flatten =
      printJson (encodeResponse ⟨some v, none, some (.str i)⟩) ++ ['\n'] := by simp
  simp only [h2]
  rw [runCall, List.foldl_cons, List.foldl_cons, List.foldl_nil]
  have hst1 : clientStep m [p] i ⟨[], none, false, []⟩ CEv.connect =
      ⟨[], none, false, [printJson (buildRequest m [p] i) ++ ['\n']]⟩ := by
    simp [clientStep]
  rw [hst1]
  simp only [clientStep, List.nil_append]
  rw [splitNl_frame _ (nl_not_print (encodeResponse ⟨some v, none, some (.str i)⟩))]
  simp only [List.foldl_cons, List.foldl_nil]
  rw [clientLine_match i _ ⟨some v, none, some (.str i)⟩ rfl rfl]
  rw [respSettle_result ⟨some v, none, some (.str i)⟩ rfl]

/-- Witness for C1: an echo handler at a concrete registry; the call resolves
with exactly the handler's value `7`. -/
theorem C1_call_roundtrip_witness :
    (runConn [(['e'], fun p => match p with
        | some x => HandlerOutcome.ok x
        | none => HandlerOutcome.ok .null)]
      [(runCall ['e'] [.num 7] ['1'] [CEv.connect]).writes.flatten]).writes =
      [printJson (encodeResponse ⟨some (.num 7), none, some (.str ['1'])⟩) ++ ['\n']] ∧
    (runCall ['e'] [.num 7] ['1'] [CEv.connect,
      CEv.data (runConn [(['e'], fun p => match p with
          | some x => HandlerOutcome.ok x
          | none => HandlerOutcome.ok .null)]
        [(runCall ['e'] [.num 7] ['1'] [CEv.connect]).writes.flatten]).writes.flatten]).settled =
      some (.resolved (some (.num 7))) := by
  exact C1_call_roundtrip
    [(['e'], fun p => match p with
      | some x => HandlerOutcome.ok x
      | none => HandlerOutcome.ok .null)]
    ['e']
    (fun p => match p with
      | some x => HandlerOutcome.ok x
      | none => HandlerOutcome.ok .null)
    (.num 7) (.num 7) ['1'] rfl rfl

end OpenGlove
